import Mathlib

/-!
Verification development for a repository with two Python source files:

* analyze.py  — loads a code-quality JSON report into a flat table
  (tree flattener), computes one aggregate statistics record per snapshot,
  and appends it to a CSV ledger stored remotely (column-union append).
* backfill.py — walks a git repository month by month (first-parent
  history), checks out one commit per month, runs the external scanner and
  analyze.py at each snapshot, and restores the original checked-out
  reference in a finally-block.

The Python code is shallowly embedded below.  Machine floats are modelled
by exact rationals; pandas NaN is modelled by Option (none = NaN); Python
exceptions are modelled by Except.  External processes (git, the scanner,
cloc) are modelled by explicit world records that determine their results.
-/

/-! ## Scalar values appearing in records and tables -/

/-- A scalar cell value: Python str, float, int, or NaN (pandas missing). -/
inductive Val where
  | str (s : String)
  | num (q : ℚ)
  | int (z : ℤ)
  | nan
deriving DecidableEq, Repr

/-- `float(x)` applied to an optional rational: `none` is NaN. -/
def valOfOpt (o : Option ℚ) : Val :=
  match o with
  | none => Val.nan
  | some q => Val.num q

/-! ## Numeric helpers: truncation, banker's rounding, list statistics -/

/-- Python `int(x)` / numpy `astype(int)` on a float: truncation toward zero. -/
def truncQ (q : ℚ) : ℤ :=
  if 0 ≤ q then ⌊q⌋ else ⌈q⌉

/-- numpy round-half-to-even of a rational to an integer (`Series.round(0)`). -/
def roundHalfEven (x : ℚ) : ℤ :=
  if x - (⌊x⌋ : ℚ) < 1/2 then ⌊x⌋
  else if 1/2 < x - (⌊x⌋ : ℚ) then ⌊x⌋ + 1
  else if Even ⌊x⌋ then ⌊x⌋ else ⌊x⌋ + 1

/-- numpy `round(x, 4)`: round half to even at the fourth decimal. -/
def round4 (q : ℚ) : ℚ :=
  (roundHalfEven (q * 10000) : ℚ) / 10000

/-- pandas `Series.mean()`: NaN (`none`) on an empty series. -/
def meanQ (l : List ℚ) : Option ℚ :=
  match l with
  | [] => none
  | _ => some (l.sum / (l.length : ℚ))

/-- pandas `Series.max()`: NaN (`none`) on an empty series. -/
def maxQ (l : List ℚ) : Option ℚ :=
  match l with
  | [] => none
  | x :: xs => some (xs.foldl max x)

/-- pandas `Series.min()`: NaN (`none`) on an empty series. -/
def minQ (l : List ℚ) : Option ℚ :=
  match l with
  | [] => none
  | x :: xs => some (xs.foldl min x)

/-- `float(mean.round(4))` of a column: NaN stays NaN, otherwise round to 4dp. -/
def roundMean4 (o : Option ℚ) : Val :=
  match o with
  | none => Val.nan
  | some q => Val.num (round4 q)

/-- The ascending sort used inside pandas `Series.quantile`. -/
def sortQ (l : List ℚ) : List ℚ :=
  List.insertionSort (· ≤ ·) l

/-- The interpolation position of quantile `q` over `n = l.length` sorted
values: `q * (n - 1)`. -/
def qPos (l : List ℚ) (q : ℚ) : ℚ :=
  q * ((l.length : ℚ) - 1)

/-- The lower index of the interpolation pair: `⌊q * (n - 1)⌋`. -/
def qIdx (l : List ℚ) (q : ℚ) : ℕ :=
  (⌊qPos l q⌋).toNat

/-- Linear-interpolation quantile over an already sorted list
(`Series.quantile` semantics: position `q * (n - 1)`, interpolate between
the two neighbouring order statistics).  NaN (`none`) on an empty series. -/
def quantileSorted (l : List ℚ) (q : ℚ) : Option ℚ :=
  if l.isEmpty then none
  else if qIdx l q + 1 < l.length then
    some (l.getD (qIdx l q) 0 +
      (qPos l q - (⌊qPos l q⌋ : ℚ)) * (l.getD (qIdx l q + 1) 0 - l.getD (qIdx l q) 0))
  else
    some (l.getD (l.length - 1) 0)

/-- pandas `Series.quantile(q)` (linear interpolation). -/
def quantileQ (l : List ℚ) (q : ℚ) : Option ℚ :=
  quantileSorted (sortQ l) q

/-! ## The report tree (input of analyze.py, produced by the scanner) -/

/-- Optional sub-record `metrics.duplication` of a report node. -/
structure Duplication where
  score : Option ℚ
  other : Option ℚ
  lines_other : Option ℚ
deriving DecidableEq, Repr

/-- Optional `metrics` object of a report node.  A JSON `null`, a missing
key and an empty dict all behave identically downstream (`m.get` returns
`None` for every key and `bool(m)` is `False`); all three are `none` at the
`ReportNode.metrics` level, so a present `Metrics` models a non-empty dict. -/
structure Metrics where
  lines : Option ℚ
  statements : Option ℚ
  expressions : Option ℚ
  expression_statements : Option ℚ
  cyclomatic_complexity : Option ℚ
  parameters : Option ℚ
  type_coverage : Option ℚ
  todo_comments : Option ℚ
  duplication : Option Duplication
deriving DecidableEq, Repr

/-- The scalar fields of one report node (`node.get(k)` for each base key). -/
structure NodeData where
  name : Option String
  nodetype : Option String
  path : Option String
  qualname : Option String
  lineno : Option ℤ
  end_lineno : Option ℤ
  docstring : Option String
  metrics : Option Metrics
deriving DecidableEq, Repr

/-- A report node: scalar data plus the ordered list of children
(`node.get("children", []) or []` makes a missing/null list empty). -/
inductive ReportNode where
  | node (data : NodeData) (children : List ReportNode)

/-- One flattened row, as produced for each node by `_iter_nodes`. -/
structure MetricsRow where
  name : Option String
  nodetype : Option String
  path : Option String
  qualname : Option String
  lineno : Option ℤ
  end_lineno : Option ℤ
  docstring : Option String
  qual_or_name : Option String
  metrics_lines : Option ℚ
  metrics_statements : Option ℚ
  metrics_expressions : Option ℚ
  metrics_expression_statements : Option ℚ
  metrics_cyclomatic_complexity : Option ℚ
  metrics_parameters : Option ℚ
  metrics_type_coverage : Option ℚ
  metrics_todo_comments : Option ℚ
  metrics_duplication_score : Option ℚ
  metrics_duplication_other : Option ℚ
  metrics_duplication_lines_other : Option ℚ
  has_metrics : Bool
  is_directory : Bool
  is_file : Bool
deriving DecidableEq, Repr

/-- Python truthiness of an optional string (`None` and `""` are falsy). -/
def strFalsy (o : Option String) : Bool :=
  match o with
  | none => true
  | some s => s == ""

/-- The row `_iter_nodes` builds for a single node (lines 61-96 of
analyze.py).  `row["qual_or_name"]` is `qualname or name` when `qualname`
is falsy and `qualname` otherwise; metric fields are `m.get(...)` with
`m = node.get("metrics") or {}` and `dup = m.get("duplication") or {}`. -/
def nodeRow (d : NodeData) : MetricsRow :=
  { name := d.name
    nodetype := d.nodetype
    path := d.path
    qualname := d.qualname
    lineno := d.lineno
    end_lineno := d.end_lineno
    docstring := d.docstring
    qual_or_name := if strFalsy d.qualname then d.name else d.qualname
    metrics_lines := d.metrics.bind (fun m => m.lines)
    metrics_statements := d.metrics.bind (fun m => m.statements)
    metrics_expressions := d.metrics.bind (fun m => m.expressions)
    metrics_expression_statements := d.metrics.bind (fun m => m.expression_statements)
    metrics_cyclomatic_complexity := d.metrics.bind (fun m => m.cyclomatic_complexity)
    metrics_parameters := d.metrics.bind (fun m => m.parameters)
    metrics_type_coverage := d.metrics.bind (fun m => m.type_coverage)
    metrics_todo_comments := d.metrics.bind (fun m => m.todo_comments)
    metrics_duplication_score := (d.metrics.bind (fun m => m.duplication)).bind (fun u => u.score)
    metrics_duplication_other := (d.metrics.bind (fun m => m.duplication)).bind (fun u => u.other)
    metrics_duplication_lines_other := (d.metrics.bind (fun m => m.duplication)).bind (fun u => u.lines_other)
    has_metrics := d.metrics.isSome
    is_directory := d.nodetype == some "directory"
    is_file := d.nodetype == some "file" }

mutual

/-- `_iter_nodes`: yield the node's own row, then recurse into the
children in their given order (pre-order). -/
def iter_nodes : ReportNode → List MetricsRow
  | ReportNode.node d cs => nodeRow d :: iter_nodes_children cs

/-- The `for child in children: yield from _iter_nodes(child)` loop. -/
def iter_nodes_children : List ReportNode → List MetricsRow
  | [] => []
  | c :: cs => iter_nodes c ++ iter_nodes_children cs

end

/-- `load_report_to_df`: flatten the tree; with `only_leaves` keep only the
rows with `has_metrics` (analyze.py lines 104-115; the DataFrame column
list fixes the schema, which the structure type already does). -/
def load_report_to_df (root : ReportNode) (only_leaves : Bool) : List MetricsRow :=
  let rows := iter_nodes root
  if only_leaves then rows.filter (fun r => r.has_metrics) else rows

/-! ### Specification-side description of flattening (for claim C6 only):
a pre-order listing of the node data and the total node count, written
independently from the words of the spec ("node before its children;
children in the order supplied by input"). -/

mutual

/-- Spec-side pre-order listing of all node data records. -/
def preorderNodes : ReportNode → List NodeData
  | ReportNode.node d cs => d :: preorderForest cs

/-- Spec-side pre-order listing of a forest. -/
def preorderForest : List ReportNode → List NodeData
  | [] => []
  | c :: cs => preorderNodes c ++ preorderForest cs

end

mutual

/-- Spec-side total node count of a tree. -/
def treeSize : ReportNode → Nat
  | ReportNode.node _ cs => 1 + forestSize cs

/-- Spec-side total node count of a forest. -/
def forestSize : List ReportNode → Nat
  | [] => 0
  | c :: cs => treeSize c + forestSize cs

end

mutual

theorem iter_nodes_eq_map : ∀ t : ReportNode,
    iter_nodes t = (preorderNodes t).map nodeRow
  | ReportNode.node d cs => by
    simp [iter_nodes, preorderNodes, iter_nodes_children_eq_map cs]

theorem iter_nodes_children_eq_map : ∀ cs : List ReportNode,
    iter_nodes_children cs = (preorderForest cs).map nodeRow
  | [] => by simp [iter_nodes_children, preorderForest]
  | c :: cs => by
    simp [iter_nodes_children, preorderForest, iter_nodes_eq_map c,
      iter_nodes_children_eq_map cs]

end

mutual

theorem preorderNodes_length : ∀ t : ReportNode,
    (preorderNodes t).length = treeSize t
  | ReportNode.node d cs => by
    simp [preorderNodes, treeSize, preorderForest_length cs, Nat.add_comm]

theorem preorderForest_length : ∀ cs : List ReportNode,
    (preorderForest cs).length = forestSize cs
  | [] => by simp [preorderForest, forestSize]
  | c :: cs => by
    simp [preorderForest, forestSize, preorderNodes_length c,
      preorderForest_length cs]

end

/-- C6: for every well-formed ReportNode tree, flattening emits exactly one
MetricsRow per node, in pre-order (each node before its children, children
in the input order, metric-less structural nodes included), and the number
of emitted rows equals the total number of nodes in the tree. -/
theorem claim_C6 (t : ReportNode) :
    iter_nodes t = (preorderNodes t).map nodeRow ∧
    (iter_nodes t).length = treeSize t := by
  refine ⟨iter_nodes_eq_map t, ?_⟩
  rw [iter_nodes_eq_map t, List.length_map, preorderNodes_length t]

/-! ## process_df: numeric coercion of the flattened rows -/

/-- A flattened row after `process_df` (analyze.py lines 118-128): the
seven count columns and `metrics.duplication.lines_other` are
`fillna(0.0).astype(int)`, `metrics.duplication.score` is
`fillna(0.0).astype(float)`; every other column — in particular
`metrics.type_coverage` and `metrics.duplication.other` — is untouched. -/
structure ProcRow where
  name : Option String
  nodetype : Option String
  path : Option String
  qualname : Option String
  lineno : Option ℤ
  end_lineno : Option ℤ
  docstring : Option String
  qual_or_name : Option String
  metrics_lines : ℤ
  metrics_statements : ℤ
  metrics_expressions : ℤ
  metrics_expression_statements : ℤ
  metrics_cyclomatic_complexity : ℤ
  metrics_parameters : ℤ
  metrics_type_coverage : Option ℚ
  metrics_todo_comments : ℤ
  metrics_duplication_score : ℚ
  metrics_duplication_other : Option ℚ
  metrics_duplication_lines_other : ℤ
  has_metrics : Bool
  is_directory : Bool
  is_file : Bool
deriving DecidableEq, Repr

/-- The action of `process_df` on a single row.  The source applies each
`fillna`/`astype` column-wise; since those pandas operations act
element-wise, the whole transformation is a row-wise map. -/
def processRow (r : MetricsRow) : ProcRow :=
  { name := r.name
    nodetype := r.nodetype
    path := r.path
    qualname := r.qualname
    lineno := r.lineno
    end_lineno := r.end_lineno
    docstring := r.docstring
    qual_or_name := r.qual_or_name
    metrics_lines := truncQ (r.metrics_lines.getD 0)
    metrics_statements := truncQ (r.metrics_statements.getD 0)
    metrics_expressions := truncQ (r.metrics_expressions.getD 0)
    metrics_expression_statements := truncQ (r.metrics_expression_statements.getD 0)
    metrics_cyclomatic_complexity := truncQ (r.metrics_cyclomatic_complexity.getD 0)
    metrics_parameters := truncQ (r.metrics_parameters.getD 0)
    metrics_type_coverage := r.metrics_type_coverage
    metrics_todo_comments := truncQ (r.metrics_todo_comments.getD 0)
    metrics_duplication_score := r.metrics_duplication_score.getD 0
    metrics_duplication_other := r.metrics_duplication_other
    metrics_duplication_lines_other := truncQ (r.metrics_duplication_lines_other.getD 0)
    has_metrics := r.has_metrics
    is_directory := r.is_directory
    is_file := r.is_file }

/-- `process_df` (analyze.py lines 118-128). -/
def process_df (df : List MetricsRow) : List ProcRow :=
  df.map processRow

/-! ## aggregate_metrics -/

/-- An aggregate record: ordered key/value pairs (a Python dict whose keys
are inserted in program order and never collide). -/
abbrev Rec : Type := List (String × Val)

/-- The error raised by `aggregate_metrics`: `int(x)` applied to a NaN
statistic raises `ValueError: cannot convert float NaN to integer`; the
field name records which statistic was being converted. -/
inductive AggErr where
  | intOfNan (field : String)
deriving DecidableEq, Repr

/-- `int(x)` on an optional float: NaN raises, otherwise truncate. -/
def toIntE (o : Option ℚ) (field : String) : Except AggErr ℤ :=
  match o with
  | none => Except.error (AggErr.intOfNan field)
  | some q => Except.ok (truncQ q)

/-- Column `metrics.lines` as floats. -/
def colLines (df : List ProcRow) : List ℚ :=
  df.map (fun r => (r.metrics_lines : ℚ))

/-- Column `metrics.statements` as floats. -/
def colStatements (df : List ProcRow) : List ℚ :=
  df.map (fun r => (r.metrics_statements : ℚ))

/-- Column `metrics.expressions` as floats. -/
def colExpressions (df : List ProcRow) : List ℚ :=
  df.map (fun r => (r.metrics_expressions : ℚ))

/-- Column `metrics.cyclomatic_complexity` as floats. -/
def colCyclomatic (df : List ProcRow) : List ℚ :=
  df.map (fun r => (r.metrics_cyclomatic_complexity : ℚ))

/-- Column `metrics.parameters` as floats. -/
def colParameters (df : List ProcRow) : List ℚ :=
  df.map (fun r => (r.metrics_parameters : ℚ))

/-- The non-null values of column `metrics.type_coverage` (pandas
statistics skip NaN entries). -/
def tcVals (df : List ProcRow) : List ℚ :=
  df.filterMap (fun r => r.metrics_type_coverage)

/-- Column `metrics.duplication.score`. -/
def colDup (df : List ProcRow) : List ℚ :=
  df.map (fun r => r.metrics_duplication_score)

/-- Column `metrics.todo_comments`. -/
def colTodo (df : List ProcRow) : List ℤ :=
  df.map (fun r => r.metrics_todo_comments)

/-- Elementwise `df["metrics.lines"] * df["metrics.duplication.score"]`. -/
def dupProducts (df : List ProcRow) : List ℚ :=
  df.map (fun r => (r.metrics_lines : ℚ) * r.metrics_duplication_score)

/-- `df["docstring"].str.len() > 0` as 0/1 flags: a null docstring gives
NaN, and `NaN > 0` is False, so nulls contribute 0 to the numerator while
still counting in the mean's denominator. -/
def docFlags (df : List ProcRow) : List ℚ :=
  df.map (fun r =>
    match r.docstring with
    | some s => if s.length > 0 then (1 : ℚ) else 0
    | none => 0)

/-- `int((df["docstring"].str.len() == 0).sum())`: only rows whose
docstring is present and empty count (`NaN == 0` is False). -/
def countEmptyDoc (df : List ProcRow) : ℤ :=
  ((df.filter (fun r => r.docstring == some "")).length : ℤ)

/-- The aggregate record produced on success, with every statistic written
with a `getD 0` default (equal to `aggregate_metrics`'s output whenever the
latter succeeds, in which case no involved Option is `none`). -/
def buildRec (df : List ProcRow) (date : String) : Rec :=
  [ ("date", Val.str date)
  , ("docstring coverage", roundMean4 (meanQ (docFlags df)))
  , ("docstring missing", Val.int (countEmptyDoc df))
  , ("lines mean", roundMean4 (meanQ (colLines df)))
  , ("lines max", Val.int (truncQ ((maxQ (colLines df)).getD 0)))
  , ("lines 90th-percentile", Val.int (truncQ ((quantileQ (colLines df) (9/10)).getD 0)))
  , ("statements mean", roundMean4 (meanQ (colStatements df)))
  , ("statements max", Val.int (truncQ ((maxQ (colStatements df)).getD 0)))
  , ("statements 90th-percentile", Val.int (truncQ ((quantileQ (colStatements df) (9/10)).getD 0)))
  , ("expressions mean", roundMean4 (meanQ (colExpressions df)))
  , ("expressions max", Val.int (truncQ ((maxQ (colExpressions df)).getD 0)))
  , ("expressions 90th-percentile", Val.int (truncQ ((quantileQ (colExpressions df) (9/10)).getD 0)))
  , ("cyclomatic_complexity mean", roundMean4 (meanQ (colCyclomatic df)))
  , ("cyclomatic_complexity max", Val.int (truncQ ((maxQ (colCyclomatic df)).getD 0)))
  , ("cyclomatic_complexity 90th-percentile", Val.int (truncQ ((quantileQ (colCyclomatic df) (9/10)).getD 0)))
  , ("parameters mean", roundMean4 (meanQ (colParameters df)))
  , ("parameters max", Val.int (truncQ ((maxQ (colParameters df)).getD 0)))
  , ("parameters 90th-percentile", Val.int (truncQ ((quantileQ (colParameters df) (9/10)).getD 0)))
  , ("type_coverage mean", roundMean4 (meanQ (tcVals df)))
  , ("type_coverage min", Val.int (truncQ ((minQ (tcVals df)).getD 0)))
  , ("type_coverage 50th-percentile", Val.int (truncQ ((quantileQ (tcVals df) (1/2)).getD 0)))
  , ("todo_comments total", Val.int (colTodo df).sum)
  , ("duplication.score mean", roundMean4 (meanQ (colDup df)))
  , ("duplication.score max", valOfOpt (maxQ (colDup df)))
  , ("duplication.score 90th-percentile", valOfOpt (quantileQ (colDup df) (9/10)))
  , ("duplication.score 50th-percentile", valOfOpt (quantileQ (colDup df) (1/2)))
  , ("duplication.duplicated-lines total", Val.int (roundHalfEven (dupProducts df).sum)) ]

/-- `aggregate_metrics` (analyze.py lines 154-194).  Statistics are
computed in source order; each `int(...)` of a NaN raises, so the
computation fails at the first such conversion.  `float(...)` of NaN and
sums of empty columns (which are 0, not NaN) never raise. -/
def aggregate_metrics (df : List ProcRow) (date : String) : Except AggErr Rec := do
  let _ ← toIntE (maxQ (colLines df)) "lines max"
  let _ ← toIntE (quantileQ (colLines df) (9/10)) "lines 90th-percentile"
  let _ ← toIntE (maxQ (colStatements df)) "statements max"
  let _ ← toIntE (quantileQ (colStatements df) (9/10)) "statements 90th-percentile"
  let _ ← toIntE (maxQ (colExpressions df)) "expressions max"
  let _ ← toIntE (quantileQ (colExpressions df) (9/10)) "expressions 90th-percentile"
  let _ ← toIntE (maxQ (colCyclomatic df)) "cyclomatic_complexity max"
  let _ ← toIntE (quantileQ (colCyclomatic df) (9/10)) "cyclomatic_complexity 90th-percentile"
  let _ ← toIntE (maxQ (colParameters df)) "parameters max"
  let _ ← toIntE (quantileQ (colParameters df) (9/10)) "parameters 90th-percentile"
  let _ ← toIntE (minQ (tcVals df)) "type_coverage min"
  let _ ← toIntE (quantileQ (tcVals df) (1/2)) "type_coverage 50th-percentile"
  return buildRec df date

/-- `dict.get`-style lookup in a record. -/
def recFind (r : Rec) (k : String) : Option Val :=
  (r.find? (fun p => p.1 == k)).map (fun p => p.2)

/-- The rational stored under a key (0 when absent or not a float). -/
def recNum (r : Rec) (k : String) : ℚ :=
  match recFind r k with
  | some (Val.num q) => q
  | _ => 0

/-- The integer stored under a key (0 when absent or not an int). -/
def recInt (r : Rec) (k : String) : ℤ :=
  match recFind r k with
  | some (Val.int z) => z
  | _ => 0

/-! ## Order lemmas for the numeric helpers -/

theorem truncQ_mono {x y : ℚ} (h : x ≤ y) : truncQ x ≤ truncQ y := by
  unfold truncQ
  by_cases h1 : (0 : ℚ) ≤ x
  · have h2 : (0 : ℚ) ≤ y := le_trans h1 h
    simp only [if_pos h1, if_pos h2]
    exact Int.floor_le_floor h
  · by_cases h2 : (0 : ℚ) ≤ y
    · simp only [if_neg h1, if_pos h2]
      calc ⌈x⌉ ≤ ⌈(0 : ℚ)⌉ := Int.ceil_le_ceil (le_of_not_le h1)
        _ = 0 := Int.ceil_zero
        _ ≤ ⌊y⌋ := Int.floor_nonneg.mpr h2
    · simp only [if_neg h1, if_neg h2]
      exact Int.ceil_le_ceil h

theorem truncQ_intCast (z : ℤ) : truncQ (z : ℚ) = z := by
  unfold truncQ
  by_cases h : (0 : ℚ) ≤ (z : ℚ) <;> simp [h]

theorem le_foldl_max : ∀ (ys : List ℚ) (y : ℚ), y ≤ ys.foldl max y
  | [], _ => le_refl _
  | z :: zs, y => le_trans (le_max_left y z) (le_foldl_max zs (max y z))

theorem mem_le_foldl_max : ∀ (ys : List ℚ) (y x : ℚ), x ∈ ys → x ≤ ys.foldl max y
  | z :: zs, y, x, hx => by
    rcases List.mem_cons.mp hx with h | h
    · subst h
      exact le_trans (le_max_right y x) (le_foldl_max zs (max y x))
    · exact mem_le_foldl_max zs (max y z) x h

theorem le_maxQ_getD {l : List ℚ} {x : ℚ} (hx : x ∈ l) : x ≤ (maxQ l).getD 0 := by
  match l, hx with
  | y :: ys, hx =>
    simp only [maxQ, Option.getD_some]
    rcases List.mem_cons.mp hx with h | h
    · subst h
      exact le_foldl_max ys x
    · exact mem_le_foldl_max ys y x h

theorem foldl_min_le : ∀ (ys : List ℚ) (y : ℚ), ys.foldl min y ≤ y
  | [], _ => le_refl _
  | z :: zs, y => le_trans (foldl_min_le zs (min y z)) (min_le_left y z)

theorem foldl_min_le_mem : ∀ (ys : List ℚ) (y x : ℚ), x ∈ ys → ys.foldl min y ≤ x
  | z :: zs, y, x, hx => by
    rcases List.mem_cons.mp hx with h | h
    · subst h
      exact le_trans (foldl_min_le zs (min y x)) (min_le_right y x)
    · exact foldl_min_le_mem zs (min y z) x h

theorem minQ_getD_le {l : List ℚ} {x : ℚ} (hx : x ∈ l) : (minQ l).getD 0 ≤ x := by
  match l, hx with
  | y :: ys, hx =>
    simp only [minQ, Option.getD_some]
    rcases List.mem_cons.mp hx with h | h
    · subst h
      exact foldl_min_le ys x
    · exact foldl_min_le_mem ys y x h

theorem maxQ_some {l : List ℚ} (h : l ≠ []) : maxQ l = some ((maxQ l).getD 0) := by
  match l, h with
  | x :: xs, _ => rfl

theorem minQ_some {l : List ℚ} (h : l ≠ []) : minQ l = some ((minQ l).getD 0) := by
  match l, h with
  | x :: xs, _ => rfl

theorem meanQ_some {l : List ℚ} (h : l ≠ []) :
    meanQ l = some (l.sum / (l.length : ℚ)) := by
  match l, h with
  | x :: xs, _ => rfl

theorem isEmpty_eq_false_of_ne {l : List ℚ} (h : l ≠ []) : l.isEmpty = false := by
  cases l with
  | nil => exact absurd rfl h
  | cons a t => rfl

theorem sortQ_ne_nil {l : List ℚ} (h : l ≠ []) : sortQ l ≠ [] := by
  intro hs
  have hp := List.perm_insertionSort (· ≤ ·) l
  rw [show List.insertionSort (· ≤ ·) l = sortQ l from rfl, hs] at hp
  exact h hp.symm.eq_nil

theorem mem_sortQ {l : List ℚ} {x : ℚ} : x ∈ sortQ l ↔ x ∈ l :=
  (List.perm_insertionSort (· ≤ ·) l).mem_iff

theorem sortQ_sorted (l : List ℚ) : (sortQ l).Sorted (· ≤ ·) :=
  List.sorted_insertionSort (· ≤ ·) l

theorem getD_mem {l : List ℚ} {i : ℕ} (h : i < l.length) : l.getD i 0 ∈ l := by
  rw [List.getD_eq_getElem l 0 h]
  exact List.getElem_mem h

theorem sorted_getD_mono {l : List ℚ} (hs : l.Sorted (· ≤ ·)) {i j : ℕ}
    (hij : i ≤ j) (hj : j < l.length) : l.getD i 0 ≤ l.getD j 0 := by
  have hi : i < l.length := lt_of_le_of_lt hij hj
  rw [List.getD_eq_getElem l 0 hi, List.getD_eq_getElem l 0 hj]
  rcases eq_or_lt_of_le hij with h | h
  · subst h
    exact le_refl _
  · have := @List.Sorted.rel_get_of_lt _ _ _ hs ⟨i, hi⟩ ⟨j, hj⟩ (Fin.mk_lt_mk.mpr h)
    simpa using this

theorem quantileSorted_le_ub {l : List ℚ} {q b : ℚ} (hne : l ≠ [])
    (hub : ∀ x ∈ l, x ≤ b) : (quantileSorted l q).getD 0 ≤ b := by
  have hlen : 0 < l.length := List.length_pos.mpr hne
  unfold quantileSorted
  rw [if_neg (by simp [isEmpty_eq_false_of_ne hne])]
  by_cases hi : qIdx l q + 1 < l.length
  · rw [if_pos hi]
    simp only [Option.getD_some]
    have hb1 := hub _ (getD_mem (show qIdx l q < l.length by omega))
    have hb2 := hub _ (getD_mem hi)
    have hg0 : (0 : ℚ) ≤ qPos l q - (⌊qPos l q⌋ : ℚ) := by
      have := Int.floor_le (qPos l q)
      linarith
    have hg1 : qPos l q - (⌊qPos l q⌋ : ℚ) < 1 := by
      have := Int.lt_floor_add_one (qPos l q)
      linarith
    nlinarith [mul_nonneg hg0 (sub_nonneg.mpr hb2),
      mul_nonneg (show (0 : ℚ) ≤ 1 - (qPos l q - (⌊qPos l q⌋ : ℚ)) by linarith)
        (sub_nonneg.mpr hb1)]
  · rw [if_neg hi]
    simp only [Option.getD_some]
    exact hub _ (getD_mem (show l.length - 1 < l.length by omega))

theorem lb_le_quantileSorted {l : List ℚ} {q b : ℚ} (hne : l ≠ [])
    (hlb : ∀ x ∈ l, b ≤ x) : b ≤ (quantileSorted l q).getD 0 := by
  have hlen : 0 < l.length := List.length_pos.mpr hne
  unfold quantileSorted
  rw [if_neg (by simp [isEmpty_eq_false_of_ne hne])]
  by_cases hi : qIdx l q + 1 < l.length
  · rw [if_pos hi]
    simp only [Option.getD_some]
    have hb1 := hlb _ (getD_mem (show qIdx l q < l.length by omega))
    have hb2 := hlb _ (getD_mem hi)
    have hg0 : (0 : ℚ) ≤ qPos l q - (⌊qPos l q⌋ : ℚ) := by
      have := Int.floor_le (qPos l q)
      linarith
    have hg1 : qPos l q - (⌊qPos l q⌋ : ℚ) < 1 := by
      have := Int.lt_floor_add_one (qPos l q)
      linarith
    nlinarith [mul_nonneg hg0 (sub_nonneg.mpr hb2),
      mul_nonneg (show (0 : ℚ) ≤ 1 - (qPos l q - (⌊qPos l q⌋ : ℚ)) by linarith)
        (sub_nonneg.mpr hb1)]
  · rw [if_neg hi]
    simp only [Option.getD_some]
    exact hlb _ (getD_mem (show l.length - 1 < l.length by omega))

theorem quantileSorted_mono {l : List ℚ} (hs : l.Sorted (· ≤ ·)) (hne : l ≠ [])
    {q1 q2 : ℚ} (h0 : 0 ≤ q1) (h12 : q1 ≤ q2) :
    (quantileSorted l q1).getD 0 ≤ (quantileSorted l q2).getD 0 := by
  have hlen : 0 < l.length := List.length_pos.mpr hne
  have hn1 : (0 : ℚ) ≤ (l.length : ℚ) - 1 := by
    have h1 : (1 : ℚ) ≤ (l.length : ℚ) := by exact_mod_cast hlen
    linarith
  have hp1 : 0 ≤ qPos l q1 := mul_nonneg h0 hn1
  have hp2 : 0 ≤ qPos l q2 := mul_nonneg (le_trans h0 h12) hn1
  have hpp : qPos l q1 ≤ qPos l q2 := mul_le_mul_of_nonneg_right h12 hn1
  have hf1 : (0 : ℤ) ≤ ⌊qPos l q1⌋ := Int.floor_nonneg.mpr hp1
  have hf2 : (0 : ℤ) ≤ ⌊qPos l q2⌋ := Int.floor_nonneg.mpr hp2
  have hcast1 : ((qIdx l q1 : ℤ)) = ⌊qPos l q1⌋ := Int.toNat_of_nonneg hf1
  have hcast2 : ((qIdx l q2 : ℤ)) = ⌊qPos l q2⌋ := Int.toNat_of_nonneg hf2
  have hidx : qIdx l q1 ≤ qIdx l q2 := by
    have := Int.floor_le_floor hpp
    unfold qIdx
    omega
  have hg10 : (0 : ℚ) ≤ qPos l q1 - (⌊qPos l q1⌋ : ℚ) := by
    have := Int.floor_le (qPos l q1)
    linarith
  have hg11 : qPos l q1 - (⌊qPos l q1⌋ : ℚ) < 1 := by
    have := Int.lt_floor_add_one (qPos l q1)
    linarith
  have hg20 : (0 : ℚ) ≤ qPos l q2 - (⌊qPos l q2⌋ : ℚ) := by
    have := Int.floor_le (qPos l q2)
    linarith
  have hg21 : qPos l q2 - (⌊qPos l q2⌋ : ℚ) < 1 := by
    have := Int.lt_floor_add_one (qPos l q2)
    linarith
  unfold quantileSorted
  simp only [isEmpty_eq_false_of_ne hne, Bool.false_eq_true, if_false]
  by_cases hA : qIdx l q1 + 1 < l.length
  · by_cases hB : qIdx l q2 + 1 < l.length
    · rw [if_pos hA, if_pos hB]
      simp only [Option.getD_some]
      by_cases heq : qIdx l q1 = qIdx l q2
      · have hfe : ⌊qPos l q1⌋ = ⌊qPos l q2⌋ := by omega
        rw [heq, hfe]
        have hvv : l.getD (qIdx l q2) 0 ≤ l.getD (qIdx l q2 + 1) 0 :=
          sorted_getD_mono hs (by omega) hB
        nlinarith [mul_nonneg (sub_nonneg.mpr hpp) (sub_nonneg.mpr hvv)]
      · have hlt : qIdx l q1 < qIdx l q2 := lt_of_le_of_ne hidx heq
        have hv1 : l.getD (qIdx l q1) 0 ≤ l.getD (qIdx l q1 + 1) 0 :=
          sorted_getD_mono hs (by omega) hA
        have hv2 : l.getD (qIdx l q1 + 1) 0 ≤ l.getD (qIdx l q2) 0 :=
          sorted_getD_mono hs (by omega) (by omega)
        have hv3 : l.getD (qIdx l q2) 0 ≤ l.getD (qIdx l q2 + 1) 0 :=
          sorted_getD_mono hs (by omega) hB
        nlinarith [mul_nonneg hg10 (sub_nonneg.mpr hv1),
          mul_nonneg hg20 (sub_nonneg.mpr hv3),
          mul_nonneg (show (0 : ℚ) ≤ 1 - (qPos l q1 - (⌊qPos l q1⌋ : ℚ)) by linarith)
            (sub_nonneg.mpr hv1)]
    · rw [if_pos hA, if_neg hB]
      simp only [Option.getD_some]
      have hv1 : l.getD (qIdx l q1) 0 ≤ l.getD (qIdx l q1 + 1) 0 :=
        sorted_getD_mono hs (by omega) hA
      have hv2 : l.getD (qIdx l q1 + 1) 0 ≤ l.getD (l.length - 1) 0 :=
        sorted_getD_mono hs (by omega) (by omega)
      nlinarith [mul_nonneg
        (show (0 : ℚ) ≤ 1 - (qPos l q1 - (⌊qPos l q1⌋ : ℚ)) by linarith)
        (sub_nonneg.mpr hv1)]
  · by_cases hB : qIdx l q2 + 1 < l.length
    · exact absurd hB (by omega)
    · rw [if_neg hA, if_neg hB]

theorem quantileQ_le_maxQ {l : List ℚ} (hne : l ≠ []) (q : ℚ) :
    (quantileQ l q).getD 0 ≤ (maxQ l).getD 0 := by
  unfold quantileQ
  refine quantileSorted_le_ub (sortQ_ne_nil hne) ?_
  intro x hx
  exact le_maxQ_getD (mem_sortQ.mp hx)

theorem minQ_le_quantileQ {l : List ℚ} (hne : l ≠ []) (q : ℚ) :
    (minQ l).getD 0 ≤ (quantileQ l q).getD 0 := by
  unfold quantileQ
  refine lb_le_quantileSorted (sortQ_ne_nil hne) ?_
  intro x hx
  exact minQ_getD_le (mem_sortQ.mp hx)

theorem quantileQ_mono {l : List ℚ} (hne : l ≠ []) {q1 q2 : ℚ}
    (h0 : 0 ≤ q1) (h12 : q1 ≤ q2) :
    (quantileQ l q1).getD 0 ≤ (quantileQ l q2).getD 0 :=
  quantileSorted_mono (sortQ_sorted l) (sortQ_ne_nil hne) h0 h12

theorem meanQ_le_maxQ {l : List ℚ} (hne : l ≠ []) :
    (meanQ l).getD 0 ≤ (maxQ l).getD 0 := by
  rw [meanQ_some hne]
  simp only [Option.getD_some]
  have hlen : 0 < l.length := List.length_pos.mpr hne
  have hlenQ : (0 : ℚ) < (l.length : ℚ) := by exact_mod_cast hlen
  rw [div_le_iff hlenQ]
  have h := List.sum_le_card_nsmul l ((maxQ l).getD 0) (fun x hx => le_maxQ_getD hx)
  rw [nsmul_eq_mul] at h
  linarith

theorem minQ_le_meanQ {l : List ℚ} (hne : l ≠ []) :
    (minQ l).getD 0 ≤ (meanQ l).getD 0 := by
  rw [meanQ_some hne]
  simp only [Option.getD_some]
  have hlen : 0 < l.length := List.length_pos.mpr hne
  have hlenQ : (0 : ℚ) < (l.length : ℚ) := by exact_mod_cast hlen
  rw [le_div_iff hlenQ]
  have h := List.card_nsmul_le_sum l ((minQ l).getD 0) (fun x hx => minQ_getD_le hx)
  rw [nsmul_eq_mul] at h
  linarith

theorem roundHalfEven_le (x : ℚ) : (roundHalfEven x : ℚ) ≤ x + 1/2 := by
  unfold roundHalfEven
  have h1 := Int.floor_le x
  have h2 := Int.lt_floor_add_one x
  split_ifs with a b c
  · linarith
  · push_cast
    linarith
  · linarith
  · push_cast
    linarith

theorem le_roundHalfEven (x : ℚ) : x - 1/2 ≤ (roundHalfEven x : ℚ) := by
  unfold roundHalfEven
  have h1 := Int.floor_le x
  have h2 := Int.lt_floor_add_one x
  split_ifs with a b c
  · linarith
  · push_cast
    linarith
  · linarith
  · push_cast
    linarith

theorem round4_le (q : ℚ) : round4 q ≤ q + 1/20000 := by
  unfold round4
  have h := roundHalfEven_le (q * 10000)
  rw [div_le_iff (show (0 : ℚ) < 10000 by norm_num)]
  linarith

theorem le_round4 (q : ℚ) : q - 1/20000 ≤ round4 q := by
  unfold round4
  have h := le_roundHalfEven (q * 10000)
  rw [le_div_iff (show (0 : ℚ) < 10000 by norm_num)]
  linarith

theorem mean_round4_bounds {l : List ℚ} (hne : l ≠ []) :
    (minQ l).getD 0 - 1/20000 ≤ round4 ((meanQ l).getD 0) ∧
    round4 ((meanQ l).getD 0) ≤ (maxQ l).getD 0 + 1/20000 := by
  have h1 := minQ_le_meanQ hne
  have h2 := meanQ_le_maxQ hne
  have h3 := le_round4 ((meanQ l).getD 0)
  have h4 := round4_le ((meanQ l).getD 0)
  constructor <;> linarith

theorem quantileQ_some {l : List ℚ} (hne : l ≠ []) (q : ℚ) :
    quantileQ l q = some ((quantileQ l q).getD 0) := by
  unfold quantileQ quantileSorted
  simp only [isEmpty_eq_false_of_ne (sortQ_ne_nil hne), Bool.false_eq_true, if_false]
  split_ifs <;> rfl

/-! ## Inversion of aggregate_metrics -/

theorem except_ok_bind {ε α β : Type} (a : α) (f : α → Except ε β) :
    (Except.ok a : Except ε α) >>= f = f a := rfl

theorem except_error_bind {ε α β : Type} (e : ε) (f : α → Except ε β) :
    (Except.error e : Except ε α) >>= f = Except.error e := rfl

theorem map_ne_nil_of_ne {α β : Type} {l : List α} (f : α → β) (h : l ≠ []) :
    l.map f ≠ [] := by
  intro hc
  exact h (List.map_eq_nil_iff.mp hc)

/-- `aggregate_metrics` on the empty (zero metric-bearing rows) table fails
at the very first `int(...)` conversion, namely `int(df["metrics.lines"].max())`. -/
theorem aggregate_metrics_nil (date : String) :
    aggregate_metrics [] date = Except.error (AggErr.intOfNan "lines max") := rfl

theorem aggregate_ok_elim {df : List ProcRow} {date : String} {rec : Rec}
    (h : aggregate_metrics df date = Except.ok rec) :
    df ≠ [] ∧ tcVals df ≠ [] ∧ rec = buildRec df date := by
  by_cases hdf : df = []
  · subst hdf
    rw [aggregate_metrics_nil] at h
    exact Except.noConfusion h
  · have hc1 : colLines df ≠ [] := map_ne_nil_of_ne _ hdf
    have hc2 : colStatements df ≠ [] := map_ne_nil_of_ne _ hdf
    have hc3 : colExpressions df ≠ [] := map_ne_nil_of_ne _ hdf
    have hc4 : colCyclomatic df ≠ [] := map_ne_nil_of_ne _ hdf
    have hc5 : colParameters df ≠ [] := map_ne_nil_of_ne _ hdf
    by_cases htc : tcVals df = []
    · exfalso
      unfold aggregate_metrics at h
      rw [maxQ_some hc1, quantileQ_some hc1 (9/10), maxQ_some hc2,
          quantileQ_some hc2 (9/10), maxQ_some hc3, quantileQ_some hc3 (9/10),
          maxQ_some hc4, quantileQ_some hc4 (9/10), maxQ_some hc5,
          quantileQ_some hc5 (9/10), htc] at h
      simp only [toIntE, except_ok_bind, minQ, except_error_bind] at h
      exact Except.noConfusion h
    · unfold aggregate_metrics at h
      rw [maxQ_some hc1, quantileQ_some hc1 (9/10), maxQ_some hc2,
          quantileQ_some hc2 (9/10), maxQ_some hc3, quantileQ_some hc3 (9/10),
          maxQ_some hc4, quantileQ_some hc4 (9/10), maxQ_some hc5,
          quantileQ_some hc5 (9/10), minQ_some htc, quantileQ_some htc (1/2)] at h
      simp only [toIntE, except_ok_bind] at h
      exact ⟨hdf, htc, (Except.ok.inj h).symm⟩

/-- `buildRec` with every Option statistic resolved to its `some` form
(valid whenever the table and its type_coverage sample are non-empty). -/
theorem buildRec_reduce (df : List ProcRow) (date : String)
    (hdf : df ≠ []) (htc : tcVals df ≠ []) :
    buildRec df date =
      [ ("date", Val.str date)
      , ("docstring coverage", Val.num (round4 ((meanQ (docFlags df)).getD 0)))
      , ("docstring missing", Val.int (countEmptyDoc df))
      , ("lines mean", Val.num (round4 ((meanQ (colLines df)).getD 0)))
      , ("lines max", Val.int (truncQ ((maxQ (colLines df)).getD 0)))
      , ("lines 90th-percentile", Val.int (truncQ ((quantileQ (colLines df) (9/10)).getD 0)))
      , ("statements mean", Val.num (round4 ((meanQ (colStatements df)).getD 0)))
      , ("statements max", Val.int (truncQ ((maxQ (colStatements df)).getD 0)))
      , ("statements 90th-percentile", Val.int (truncQ ((quantileQ (colStatements df) (9/10)).getD 0)))
      , ("expressions mean", Val.num (round4 ((meanQ (colExpressions df)).getD 0)))
      , ("expressions max", Val.int (truncQ ((maxQ (colExpressions df)).getD 0)))
      , ("expressions 90th-percentile", Val.int (truncQ ((quantileQ (colExpressions df) (9/10)).getD 0)))
      , ("cyclomatic_complexity mean", Val.num (round4 ((meanQ (colCyclomatic df)).getD 0)))
      , ("cyclomatic_complexity max", Val.int (truncQ ((maxQ (colCyclomatic df)).getD 0)))
      , ("cyclomatic_complexity 90th-percentile", Val.int (truncQ ((quantileQ (colCyclomatic df) (9/10)).getD 0)))
      , ("parameters mean", Val.num (round4 ((meanQ (colParameters df)).getD 0)))
      , ("parameters max", Val.int (truncQ ((maxQ (colParameters df)).getD 0)))
      , ("parameters 90th-percentile", Val.int (truncQ ((quantileQ (colParameters df) (9/10)).getD 0)))
      , ("type_coverage mean", Val.num (round4 ((meanQ (tcVals df)).getD 0)))
      , ("type_coverage min", Val.int (truncQ ((minQ (tcVals df)).getD 0)))
      , ("type_coverage 50th-percentile", Val.int (truncQ ((quantileQ (tcVals df) (1/2)).getD 0)))
      , ("todo_comments total", Val.int (colTodo df).sum)
      , ("duplication.score mean", Val.num (round4 ((meanQ (colDup df)).getD 0)))
      , ("duplication.score max", Val.num ((maxQ (colDup df)).getD 0))
      , ("duplication.score 90th-percentile", Val.num ((quantileQ (colDup df) (9/10)).getD 0))
      , ("duplication.score 50th-percentile", Val.num ((quantileQ (colDup df) (1/2)).getD 0))
      , ("duplication.duplicated-lines total", Val.int (roundHalfEven (dupProducts df).sum)) ] := by
  have hdoc : docFlags df ≠ [] := map_ne_nil_of_ne _ hdf
  have hcd : colDup df ≠ [] := map_ne_nil_of_ne _ hdf
  have hc1 : colLines df ≠ [] := map_ne_nil_of_ne _ hdf
  have hc2 : colStatements df ≠ [] := map_ne_nil_of_ne _ hdf
  have hc3 : colExpressions df ≠ [] := map_ne_nil_of_ne _ hdf
  have hc4 : colCyclomatic df ≠ [] := map_ne_nil_of_ne _ hdf
  have hc5 : colParameters df ≠ [] := map_ne_nil_of_ne _ hdf
  unfold buildRec
  rw [meanQ_some hdoc, meanQ_some hc1, meanQ_some hc2, meanQ_some hc3,
    meanQ_some hc4, meanQ_some hc5, meanQ_some htc, meanQ_some hcd,
    maxQ_some hcd, quantileQ_some hcd (9/10), quantileQ_some hcd (1/2)]
  rfl

/-- The single metric-bearing row used to refute claim C9: its duplication
score is 0.00004, whose 4-decimal rounded mean is 0.0, strictly below the
sample minimum. -/
def rowC9 : ProcRow :=
  { name := some "f", nodetype := some "function", path := some "a.py",
    qualname := some "m.f", lineno := some 1, end_lineno := some 2,
    docstring := some "doc", qual_or_name := some "m.f",
    metrics_lines := 10, metrics_statements := 1, metrics_expressions := 1,
    metrics_expression_statements := 1, metrics_cyclomatic_complexity := 1,
    metrics_parameters := 1, metrics_type_coverage := some 1,
    metrics_todo_comments := 0, metrics_duplication_score := 1/25000,
    metrics_duplication_other := none, metrics_duplication_lines_other := 0,
    has_metrics := true, is_directory := false, is_file := false }

/-- The counterexample table for C9. -/
def dfC9 : List ProcRow := [rowC9]

/-- Whenever the table and its type_coverage sample are non-empty, every
`int(...)` conversion succeeds and `aggregate_metrics` returns `buildRec`. -/
theorem aggregate_ok_intro {df : List ProcRow} (hdf : df ≠ [])
    (htc : tcVals df ≠ []) (date : String) :
    aggregate_metrics df date = Except.ok (buildRec df date) := by
  have hc1 : colLines df ≠ [] := map_ne_nil_of_ne _ hdf
  have hc2 : colStatements df ≠ [] := map_ne_nil_of_ne _ hdf
  have hc3 : colExpressions df ≠ [] := map_ne_nil_of_ne _ hdf
  have hc4 : colCyclomatic df ≠ [] := map_ne_nil_of_ne _ hdf
  have hc5 : colParameters df ≠ [] := map_ne_nil_of_ne _ hdf
  unfold aggregate_metrics
  rw [maxQ_some hc1, quantileQ_some hc1 (9/10), maxQ_some hc2,
    quantileQ_some hc2 (9/10), maxQ_some hc3, quantileQ_some hc3 (9/10),
    maxQ_some hc4, quantileQ_some hc4 (9/10), maxQ_some hc5,
    quantileQ_some hc5 (9/10), minQ_some htc, quantileQ_some htc (1/2)]
  rfl

/-- The record `aggregate_metrics` produces on `dfC9`. -/
def recC9 : Rec := buildRec dfC9 "2024-01-01"

/-- C9 counterexample: on a non-empty metric-bearing table the aggregation
succeeds, but the recorded `duplication.score mean` (0, after 4-decimal
rounding) is strictly below the minimum of its sample (0.00004), so the
recorded mean does not lie within the minimum and maximum of its sample as
the claim states. -/
theorem claim_C9_counterexample :
    aggregate_metrics dfC9 "2024-01-01" = Except.ok recC9 ∧
    recNum recC9 "duplication.score mean" = 0 ∧
    (minQ (colDup dfC9)).getD 0 = 1/25000 ∧
    recNum recC9 "duplication.score mean" < (minQ (colDup dfC9)).getD 0 := by
  have hdf : dfC9 ≠ [] := by simp [dfC9]
  have htc : tcVals dfC9 ≠ [] := by simp [tcVals, dfC9, rowC9]
  have hmean : recNum recC9 "duplication.score mean" = 0 := by
    show round4 ((meanQ (colDup dfC9)).getD 0) = 0
    norm_num [meanQ, colDup, dfC9, rowC9, round4, roundHalfEven]
  have hmin : (minQ (colDup dfC9)).getD 0 = 1/25000 := rfl
  refine ⟨aggregate_ok_intro hdf htc "2024-01-01", hmean, hmin, ?_⟩
  rw [hmean, hmin]
  norm_num

/-- C9 (amended): whenever `aggregate_metrics` succeeds, the recorded 50th
percentile of the duplication score is at most its 90th percentile, every
recorded 90th percentile is at most the corresponding recorded maximum, and
every recorded mean lies within the minimum and maximum of its sample
widened by 0.00005 on both sides — the slack that the 4-decimal rounding of
the mean can introduce (and, per the counterexample, sometimes does). -/
theorem claim_C9_amended (df : List ProcRow) (date : String) (rec : Rec)
    (h : aggregate_metrics df date = Except.ok rec) :
    (recNum rec "duplication.score 50th-percentile" ≤
       recNum rec "duplication.score 90th-percentile" ∧
     recNum rec "duplication.score 90th-percentile" ≤
       recNum rec "duplication.score max") ∧
    (recInt rec "lines 90th-percentile" ≤ recInt rec "lines max" ∧
     recInt rec "statements 90th-percentile" ≤ recInt rec "statements max" ∧
     recInt rec "expressions 90th-percentile" ≤ recInt rec "expressions max" ∧
     recInt rec "cyclomatic_complexity 90th-percentile" ≤
       recInt rec "cyclomatic_complexity max" ∧
     recInt rec "parameters 90th-percentile" ≤ recInt rec "parameters max") ∧
    ((minQ (colLines df)).getD 0 - 1/20000 ≤ recNum rec "lines mean" ∧
     recNum rec "lines mean" ≤ (maxQ (colLines df)).getD 0 + 1/20000) ∧
    ((minQ (colStatements df)).getD 0 - 1/20000 ≤ recNum rec "statements mean" ∧
     recNum rec "statements mean" ≤ (maxQ (colStatements df)).getD 0 + 1/20000) ∧
    ((minQ (colExpressions df)).getD 0 - 1/20000 ≤ recNum rec "expressions mean" ∧
     recNum rec "expressions mean" ≤ (maxQ (colExpressions df)).getD 0 + 1/20000) ∧
    ((minQ (colCyclomatic df)).getD 0 - 1/20000 ≤
       recNum rec "cyclomatic_complexity mean" ∧
     recNum rec "cyclomatic_complexity mean" ≤
       (maxQ (colCyclomatic df)).getD 0 + 1/20000) ∧
    ((minQ (colParameters df)).getD 0 - 1/20000 ≤ recNum rec "parameters mean" ∧
     recNum rec "parameters mean" ≤ (maxQ (colParameters df)).getD 0 + 1/20000) ∧
    ((minQ (tcVals df)).getD 0 - 1/20000 ≤ recNum rec "type_coverage mean" ∧
     recNum rec "type_coverage mean" ≤ (maxQ (tcVals df)).getD 0 + 1/20000) ∧
    ((minQ (colDup df)).getD 0 - 1/20000 ≤ recNum rec "duplication.score mean" ∧
     recNum rec "duplication.score mean" ≤ (maxQ (colDup df)).getD 0 + 1/20000) := by
  obtain ⟨hdf, htc, hrec⟩ := aggregate_ok_elim h
  subst hrec
  have hcd : colDup df ≠ [] := map_ne_nil_of_ne _ hdf
  have hc1 : colLines df ≠ [] := map_ne_nil_of_ne _ hdf
  have hc2 : colStatements df ≠ [] := map_ne_nil_of_ne _ hdf
  have hc3 : colExpressions df ≠ [] := map_ne_nil_of_ne _ hdf
  have hc4 : colCyclomatic df ≠ [] := map_ne_nil_of_ne _ hdf
  have hc5 : colParameters df ≠ [] := map_ne_nil_of_ne _ hdf
  rw [buildRec_reduce df date hdf htc]
  refine ⟨⟨?_, ?_⟩, ⟨?_, ?_, ?_, ?_, ?_⟩, ?_, ?_, ?_, ?_, ?_, ?_, ?_⟩
  · exact quantileQ_mono hcd (by norm_num) (by norm_num)
  · exact quantileQ_le_maxQ hcd (9/10)
  · exact truncQ_mono (quantileQ_le_maxQ hc1 (9/10))
  · exact truncQ_mono (quantileQ_le_maxQ hc2 (9/10))
  · exact truncQ_mono (quantileQ_le_maxQ hc3 (9/10))
  · exact truncQ_mono (quantileQ_le_maxQ hc4 (9/10))
  · exact truncQ_mono (quantileQ_le_maxQ hc5 (9/10))
  · exact mean_round4_bounds hc1
  · exact mean_round4_bounds hc2
  · exact mean_round4_bounds hc3
  · exact mean_round4_bounds hc4
  · exact mean_round4_bounds hc5
  · exact mean_round4_bounds htc
  · exact mean_round4_bounds hcd

/-- C9 witness: the amended theorem applied to the concrete table `dfC9`,
with its hypothesis discharged by an explicit term. -/
theorem claim_C9_witness :
    recNum recC9 "duplication.score 50th-percentile" ≤
      recNum recC9 "duplication.score 90th-percentile" :=
  (claim_C9_amended dfC9 "2024-01-01" recC9
    (aggregate_ok_intro (by simp [dfC9]) (by simp [tcVals, dfC9, rowC9]) "2024-01-01")).1.1

/-! ## Claim C4: which null fields process_df actually fills -/

/-- The metrics object of the counterexample node for C4: a metric-bearing
node whose `type_coverage` and `duplication.other` are null. -/
def mC4 : Metrics :=
  { lines := some 5, statements := some 2, expressions := some 3,
    expression_statements := none, cyclomatic_complexity := some 1,
    parameters := none, type_coverage := none, todo_comments := none,
    duplication := some { score := none, other := none, lines_other := none } }

/-- The file node data of the C4 counterexample tree. -/
def dataC4file : NodeData :=
  { name := some "a.py", nodetype := some "file", path := some "pkg/a.py",
    qualname := none, lineno := some 1, end_lineno := some 9,
    docstring := some "", metrics := some mC4 }

/-- A directory (no metrics) containing one metric-bearing file node. -/
def treeC4 : ReportNode :=
  ReportNode.node
    { name := some "pkg", nodetype := some "directory", path := some "pkg",
      qualname := none, lineno := none, end_lineno := none, docstring := none,
      metrics := none }
    [ReportNode.node dataC4file []]

/-- C4 counterexample: after filtering to `has_metrics` rows and running
`process_df`, the single metric-bearing row still has `type_coverage = none`
and `duplication.other = none` — neither was replaced by its identity
value, contradicting the claim that every null numeric metric field
remaining in the filtered rows is zero-filled. -/
theorem claim_C4_counterexample :
    (process_df (load_report_to_df treeC4 true)).map
        (fun p => (p.has_metrics, p.metrics_type_coverage, p.metrics_duplication_other)) =
      [(true, none, none)] := rfl

/-- C4 (amended): before any statistic is computed the rows are filtered to
`has_metrics = true`, and then within those rows the null count fields
(lines, statements, expressions, expression_statements,
cyclomatic_complexity, parameters, todo_comments and
duplication.lines_other) are zero-filled and coerced to integers and a null
duplication.score becomes 0.0 — but `type_coverage` and
`duplication.other` are left untouched, nulls included. -/
theorem claim_C4_amended (root : ReportNode) (r : MetricsRow)
    (hr : r ∈ load_report_to_df root true) :
    r.has_metrics = true ∧
    process_df (load_report_to_df root true) =
      ((iter_nodes root).filter (fun x => x.has_metrics)).map processRow ∧
    (processRow r).metrics_lines = truncQ (r.metrics_lines.getD 0) ∧
    (processRow r).metrics_statements = truncQ (r.metrics_statements.getD 0) ∧
    (processRow r).metrics_expressions = truncQ (r.metrics_expressions.getD 0) ∧
    (processRow r).metrics_expression_statements =
      truncQ (r.metrics_expression_statements.getD 0) ∧
    (processRow r).metrics_cyclomatic_complexity =
      truncQ (r.metrics_cyclomatic_complexity.getD 0) ∧
    (processRow r).metrics_parameters = truncQ (r.metrics_parameters.getD 0) ∧
    (processRow r).metrics_todo_comments = truncQ (r.metrics_todo_comments.getD 0) ∧
    (processRow r).metrics_duplication_lines_other =
      truncQ (r.metrics_duplication_lines_other.getD 0) ∧
    (processRow r).metrics_duplication_score = r.metrics_duplication_score.getD 0 ∧
    (processRow r).metrics_type_coverage = r.metrics_type_coverage ∧
    (processRow r).metrics_duplication_other = r.metrics_duplication_other := by
  refine ⟨?_, rfl, rfl, rfl, rfl, rfl, rfl, rfl, rfl, rfl, rfl, rfl, rfl⟩
  have hr2 : r ∈ (iter_nodes root).filter (fun x => x.has_metrics) := hr
  exact (List.mem_filter.mp hr2).2

/-- C4 witness: the amended theorem applied to the metric-bearing row of
the concrete tree `treeC4`. -/
theorem claim_C4_witness :
    (nodeRow dataC4file).has_metrics = true ∧
    (processRow (nodeRow dataC4file)).metrics_type_coverage =
      (nodeRow dataC4file).metrics_type_coverage := by
  have h := claim_C4_amended treeC4 (nodeRow dataC4file)
    (show nodeRow dataC4file ∈ load_report_to_df treeC4 true from
      List.mem_singleton.mpr rfl)
  exact ⟨h.1, h.2.2.2.2.2.2.2.2.2.2.2.1⟩

/-! ## Claim C10: docstring accounting -/

/-- Rows whose docstring is present and non-empty (the coverage numerator). -/
def docPresentNonempty (r : ProcRow) : Bool :=
  match r.docstring with
  | some s => decide (0 < s.length)
  | none => false

/-- The number of rows with a present, non-empty docstring. -/
def nNonemptyDoc (df : List ProcRow) : ℕ :=
  (df.filter docPresentNonempty).length

/-- The number of rows whose docstring is null/absent. -/
def nNullDoc (df : List ProcRow) : ℕ :=
  (df.filter (fun r => r.docstring.isNone)).length

/-- The number of rows whose docstring is present and empty. -/
def nEmptyDoc (df : List ProcRow) : ℕ :=
  (df.filter (fun r => r.docstring == some "")).length

theorem countEmptyDoc_eq (df : List ProcRow) :
    countEmptyDoc df = (nEmptyDoc df : ℤ) := rfl

theorem string_eq_empty_of_length {s : String} (h : s.length = 0) : s = "" := by
  cases s with
  | mk data =>
    cases data with
    | nil => rfl
    | cons c t => simp [String.length] at h

theorem docFlags_sum (df : List ProcRow) :
    (docFlags df).sum = (nNonemptyDoc df : ℚ) := by
  induction df with
  | nil => rfl
  | cons r t ih =>
    unfold docFlags nNonemptyDoc at ih ⊢
    cases hd : r.docstring with
    | none =>
      simp [List.filter_cons, docPresentNonempty, hd, ih]
    | some s =>
      by_cases hs : 0 < s.length
      · simp [List.filter_cons, docPresentNonempty, hd, hs, ih]
        ring
      · simp [List.filter_cons, docPresentNonempty, hd, hs, ih]

theorem doc_partition (df : List ProcRow) :
    nNonemptyDoc df + nEmptyDoc df + nNullDoc df = df.length := by
  induction df with
  | nil => rfl
  | cons r t ih =>
    unfold nNonemptyDoc nEmptyDoc nNullDoc at ih ⊢
    cases hd : r.docstring with
    | none =>
      simp [List.filter_cons, docPresentNonempty, hd]
      omega
    | some s =>
      by_cases hs : s = ""
      · subst hs
        simp [List.filter_cons, docPresentNonempty, hd]
        omega
      · have hlen : 0 < s.length := by
          rcases Nat.eq_zero_or_pos s.length with h0 | h0
          · exact absurd (string_eq_empty_of_length h0) hs
          · exact h0
        simp [List.filter_cons, docPresentNonempty, hd, hlen, hs]
        omega

/-- A row with the given docstring and innocuous metric values, used in the
closed instances for C10. -/
def procRowDoc (d : Option String) : ProcRow :=
  { name := some "f", nodetype := some "function", path := some "a.py",
    qualname := some "m.f", lineno := some 1, end_lineno := some 2,
    docstring := d, qual_or_name := some "m.f",
    metrics_lines := 1, metrics_statements := 1, metrics_expressions := 1,
    metrics_expression_statements := 1, metrics_cyclomatic_complexity := 1,
    metrics_parameters := 1, metrics_type_coverage := some 1,
    metrics_todo_comments := 0, metrics_duplication_score := 0,
    metrics_duplication_other := none, metrics_duplication_lines_other := 0,
    has_metrics := true, is_directory := false, is_file := false }

/-- The C10 instance table: one row with a non-empty docstring, one row
with a null (absent) docstring. -/
def dfC10 : List ProcRow := [procRowDoc (some "a"), procRowDoc none]

/-- The record aggregated from `dfC10`. -/
def recC10 : Rec := buildRec dfC10 "2024-01-01"

/-- C10: rows with an absent (null) docstring count in the denominator of
`docstring coverage` but in neither the non-empty numerator nor the
`docstring missing` count, so coverage plus missing/rows can be strictly
below 1; the closed conjuncts exhibit this on `dfC10`, where coverage is
0.5, missing is 0 and their combination is strictly less than 1. -/
theorem claim_C10 (df : List ProcRow) (date : String) (rec : Rec)
    (h : aggregate_metrics df date = Except.ok rec) :
    recFind rec "docstring coverage" =
      some (Val.num (round4 ((nNonemptyDoc df : ℚ) / (df.length : ℚ)))) ∧
    recFind rec "docstring missing" = some (Val.int (nEmptyDoc df : ℤ)) ∧
    nNonemptyDoc df + nEmptyDoc df + nNullDoc df = df.length ∧
    recNum recC10 "docstring coverage" +
      (recInt recC10 "docstring missing" : ℚ) / (dfC10.length : ℚ) < 1 ∧
    nNullDoc dfC10 = 1 := by
  obtain ⟨hdf, htc, hrec⟩ := aggregate_ok_elim h
  subst hrec
  have hdoc : docFlags df ≠ [] := map_ne_nil_of_ne _ hdf
  have hmeanv : (meanQ (docFlags df)).getD 0 = (nNonemptyDoc df : ℚ) / (df.length : ℚ) := by
    rw [meanQ_some hdoc]
    simp only [Option.getD_some]
    rw [docFlags_sum]
    have hlen : (docFlags df).length = df.length := by
      unfold docFlags
      exact List.length_map df _
    rw [hlen]
  have hcov : recFind (buildRec df date) "docstring coverage" =
      some (Val.num (round4 ((meanQ (docFlags df)).getD 0))) := by
    rw [buildRec_reduce df date hdf htc]
    rfl
  refine ⟨?_, ?_, doc_partition df, ?_, ?_⟩
  · rw [hcov, hmeanv]
  · rw [buildRec_reduce df date hdf htc]
    rfl
  · have h1 : recNum recC10 "docstring coverage" = round4 (1/2) := by
      show round4 ((meanQ (docFlags dfC10)).getD 0) = round4 (1/2)
      norm_num [meanQ, docFlags, dfC10, procRowDoc, show "a".length = 1 from rfl]
    have h2 : recInt recC10 "docstring missing" = 0 := rfl
    rw [h1, h2]
    norm_num [round4, roundHalfEven]
  · rfl

/-- C10 witness: the theorem applied at the concrete table `dfC10`. -/
theorem claim_C10_witness :
    recFind recC10 "docstring missing" = some (Val.int (nEmptyDoc dfC10 : ℤ)) :=
  (claim_C10 dfC10 "2024-01-01" recC10
    (aggregate_ok_intro (by simp [dfC10]) (by simp [tcVals, dfC10, procRowDoc]) "2024-01-01")).2.1

/-! ## cloc_metrics (analyze.py lines 131-151) and analyze.py main -/

/-- Whether an Except value is a success. -/
def exceptIsOk {ε α : Type} (e : Except ε α) : Bool :=
  match e with
  | Except.ok _ => true
  | Except.error _ => false

/-- Per-language cloc counters; `py_data.get(key, 0)` treats a missing
counter as 0. -/
structure ClocLang where
  nFiles : Option ℤ
  blank : Option ℤ
  comment : Option ℤ
  code : Option ℤ
deriving DecidableEq, Repr

/-- Outcome of spawning `cloc --json <path>`:
* `binMissing`: the executable is absent, so `subprocess.run` raises
  `FileNotFoundError` — which the `except (CalledProcessError,
  JSONDecodeError)` clause does not catch;
* `callFailed`: non-zero exit (`CalledProcessError`, caught);
* `badJson`: stdout is not parseable (`json.JSONDecodeError`, caught);
* `parsed langs`: the parsed JSON dict keyed by language name. -/
inductive ClocOutcome where
  | binMissing
  | callFailed
  | badJson
  | parsed (langs : List (String × ClocLang))
deriving DecidableEq, Repr

/-- The uncaught exception escaping `cloc_metrics`. -/
inductive ClocErr where
  | fileNotFound
deriving DecidableEq, Repr

/-- `cloc_metrics`: caught failures and a missing "Python" language yield
the empty partial result; an absent executable raises `FileNotFoundError`. -/
def cloc_metrics (o : ClocOutcome) : Except ClocErr (List (String × ℤ)) :=
  match o with
  | ClocOutcome.binMissing => Except.error ClocErr.fileNotFound
  | ClocOutcome.callFailed => Except.ok []
  | ClocOutcome.badJson => Except.ok []
  | ClocOutcome.parsed langs =>
    match langs.find? (fun p => p.1 == "Python") with
    | none => Except.ok []
    | some p =>
      Except.ok [ ("files", p.2.nFiles.getD 0)
                , ("lines blank", p.2.blank.getD 0)
                , ("lines comment", p.2.comment.getD 0)
                , ("lines code", p.2.code.getD 0) ]

/-- The error with which analyze.py's process exits (non-zero status). -/
inductive AnalyzeErr where
  | agg (e : AggErr)
  | clocFileNotFound
deriving DecidableEq, Repr

/-- Python `dict.update`: overwrite values of existing keys in place,
append new keys in first-seen order. -/
def dictUpdate (base : Rec) (extra : List (String × Val)) : Rec :=
  extra.foldl
    (fun acc p =>
      if acc.any (fun q => q.1 == p.1) then
        acc.map (fun q => if q.1 == p.1 then (q.1, p.2) else q)
      else acc ++ [p])
    base

/-- analyze.py `main` on the path backfill.py drives (no hub upload):
load the report keeping only metric-bearing rows (`only_leaves=True`),
coerce with `process_df`, aggregate, then merge the cloc metrics into the
record with `dict.update`; the record is printed as a one-row CSV. -/
def analyze_main (root : ReportNode) (date : String) (cloc : ClocOutcome) :
    Except AnalyzeErr Rec :=
  match aggregate_metrics (process_df (load_report_to_df root true)) date with
  | Except.error e => Except.error (AnalyzeErr.agg e)
  | Except.ok agg =>
    match cloc_metrics cloc with
    | Except.error _ => Except.error AnalyzeErr.clocFileNotFound
    | Except.ok extra =>
      Except.ok (dictUpdate agg (extra.map (fun p => (p.1, Val.int p.2))))

/-- A complete metrics object for a well-behaved snapshot. -/
def mC8 : Metrics :=
  { lines := some 10, statements := some 4, expressions := some 6,
    expression_statements := some 2, cyclomatic_complexity := some 2,
    parameters := some 1, type_coverage := some 80, todo_comments := some 0,
    duplication := some { score := some 0, other := some 0, lines_other := some 0 } }

/-- A single metric-bearing file node. -/
def dataC8 : NodeData :=
  { name := some "b.py", nodetype := some "file", path := some "b.py",
    qualname := none, lineno := some 1, end_lineno := some 12,
    docstring := some "mod", metrics := some mC8 }

/-- A one-node report tree whose aggregation succeeds. -/
def treeC8 : ReportNode := ReportNode.node dataC8 []

/-- C8 counterexample: when the line-counter executable itself is absent,
`cloc_metrics` raises `FileNotFoundError` instead of returning an empty
partial result, and the whole analyze step for an otherwise healthy
snapshot fails — contradicting the claim that any failure of the tool,
including its absence, is never fatal. -/
theorem claim_C8_counterexample :
    cloc_metrics ClocOutcome.binMissing = Except.error ClocErr.fileNotFound ∧
    analyze_main treeC8 "2024-01-01" ClocOutcome.binMissing =
      Except.error AnalyzeErr.clocFileNotFound := by
  refine ⟨rfl, ?_⟩
  unfold analyze_main
  rw [aggregate_ok_intro (show process_df (load_report_to_df treeC8 true) ≠ [] by decide)
    (show tcVals (process_df (load_report_to_df treeC8 true)) ≠ [] by decide) "2024-01-01"]
  rfl

/-- C8 (amended): every outcome of the line-counter step other than the
absence of the executable — non-zero exit, unparseable output, or a parsed
report without a detected Python entry — yields an empty partial result
merged as missing optional fields and is never fatal to the analyze step;
but if the `cloc` binary is absent the raised `FileNotFoundError` is not
caught and the analyze step fails (see the counterexample). -/
theorem claim_C8_amended (o : ClocOutcome) (hno : o ≠ ClocOutcome.binMissing) :
    (∃ r, cloc_metrics o = Except.ok r) ∧
    (o = ClocOutcome.callFailed ∨ o = ClocOutcome.badJson →
      cloc_metrics o = Except.ok []) ∧
    (∀ langs, o = ClocOutcome.parsed langs →
      langs.find? (fun p => p.1 == "Python") = none →
      cloc_metrics o = Except.ok []) ∧
    (∀ root date,
      exceptIsOk (aggregate_metrics (process_df (load_report_to_df root true)) date) = true →
      exceptIsOk (analyze_main root date o) = true) := by
  have hok : ∃ r, cloc_metrics o = Except.ok r := by
    cases o with
    | binMissing => exact absurd rfl hno
    | callFailed => exact ⟨[], rfl⟩
    | badJson => exact ⟨[], rfl⟩
    | parsed langs =>
      cases hf : langs.find? (fun p => p.1 == "Python") with
      | none => exact ⟨[], by simp only [cloc_metrics]; rw [hf]⟩
      | some p => exact ⟨_, by simp only [cloc_metrics]; rw [hf]⟩
  obtain ⟨r, hr⟩ := hok
  refine ⟨⟨r, hr⟩, ?_, ?_, ?_⟩
  · rintro (rfl | rfl) <;> rfl
  · rintro langs rfl hf
    simp only [cloc_metrics]
    rw [hf]
  · intro root date hagg
    cases ha : aggregate_metrics (process_df (load_report_to_df root true)) date with
    | error e =>
      rw [ha] at hagg
      exact absurd hagg (by simp [exceptIsOk])
    | ok agg =>
      unfold analyze_main
      rw [ha, hr]
      rfl

/-- C8 witness: the amended theorem at the caught non-zero-exit outcome. -/
theorem claim_C8_witness :
    cloc_metrics ClocOutcome.callFailed = Except.ok [] :=
  (claim_C8_amended ClocOutcome.callFailed (by decide)).2.1 (Or.inl rfl)

/-! ## The ledger (append_metrics_to_hub_csv, analyze.py lines 197-275) -/

/-- A pandas DataFrame: named columns and rows of cells.  A cell inserted
for a column the row never had is NaN. -/
structure DF where
  cols : List String
  rows : List (List Val)
deriving DecidableEq, Repr

/-- The worker of `dict.fromkeys` de-duplication: drop entries already
seen, keep first occurrences in order. -/
def dedupGo (seen : List String) : List String → List String
  | [] => []
  | c :: cs => if c ∈ seen then dedupGo seen cs else c :: dedupGo (c :: seen) cs

/-- `list(dict.fromkeys(l))`: de-duplicate, keeping first-seen order. -/
def dedupKeepFirst (l : List String) : List String := dedupGo [] l

/-- Lookup of a named cell in a single row (pandas column indexing). -/
def rowLookup (cols : List String) (r : List Val) (c : String) : Option Val :=
  (cols.findIdx? (fun c2 => c2 == c)).bind (fun j => r.get? j)

/-- One reindexed row: for each target column take the row's value under
that name, NaN when the column is absent. -/
def reindexRow (cols : List String) (r : List Val) (newCols : List String) : List Val :=
  newCols.map (fun c => (rowLookup cols r c).getD Val.nan)

/-- `DataFrame.reindex(columns=newCols)`. -/
def DF.reindex (df : DF) (newCols : List String) : DF :=
  ⟨newCols, df.rows.map (fun r => reindexRow df.cols r newCols)⟩

/-- The column names of `pd.DataFrame([row])`: the dict keys in
construction order (unique in a Python dict). -/
def recordKeys (row : List (String × Val)) : List String :=
  dedupKeepFirst (row.map (fun p => p.1))

/-- The cell of `pd.DataFrame([row])` under a given key. -/
def recordCell (row : List (String × Val)) (c : String) : Val :=
  ((row.find? (fun p => p.1 == c)).map (fun p => p.2)).getD Val.nan

/-- `pd.DataFrame([row])` for a dict row (keys of a Python dict are
unique; the de-duplication mirrors dict construction order). -/
def recordToDF (row : List (String × Val)) : DF :=
  ⟨recordKeys row, [(recordKeys row).map (recordCell row)]⟩

/-- What the remote store holds at the ledger path. -/
inductive RemoteCsv where
  | absent
  | emptyFile
  | csv (df : DF)
deriving DecidableEq, Repr

/-- `_download_space_csv_or_empty`: a missing file (`EntryNotFoundError`)
and an unparseable empty file (`EmptyDataError`) both give `pd.DataFrame()`,
the ledger with no columns and no rows. -/
def download_space_csv_or_empty (remote : RemoteCsv) : DF :=
  match remote with
  | RemoteCsv.absent => ⟨[], []⟩
  | RemoteCsv.emptyFile => ⟨[], []⟩
  | RemoteCsv.csv df => df

/-- The merge step of `append_metrics_to_hub_csv` (analyze.py lines
249-258): column union in first-seen order; if the existing ledger is
empty (`df_existing.empty`, i.e. it has no rows) reindex the new row
alone, otherwise reindex both and concatenate.  The subsequent
serialize-and-commit uploads the merged table wholesale. -/
def append_metrics_to_hub_csv (remote : RemoteCsv) (row : List (String × Val)) : DF :=
  let df_existing := download_space_csv_or_empty remote
  let df_new := recordToDF row
  let all_cols := dedupKeepFirst (df_existing.cols ++ df_new.cols)
  if df_existing.rows.isEmpty then df_new.reindex all_cols
  else ⟨all_cols, (df_existing.reindex all_cols).rows ++ (df_new.reindex all_cols).rows⟩

/-! ### Ledger lemmas -/

theorem dedupGo_nodup : ∀ (l seen : List String),
    (dedupGo seen l).Nodup ∧ ∀ x ∈ dedupGo seen l, x ∉ seen
  | [], seen => ⟨List.nodup_nil, by simp [dedupGo]⟩
  | c :: cs, seen => by
    by_cases hc : c ∈ seen
    · simpa [dedupGo, hc] using dedupGo_nodup cs seen
    · have ih := dedupGo_nodup cs (c :: seen)
      refine ⟨?_, ?_⟩
      · simp only [dedupGo, if_neg hc]
        refine List.Nodup.cons ?_ ih.1
        intro hmem
        exact (ih.2 c hmem) (List.mem_cons_self c seen)
      · intro x hx
        simp only [dedupGo, if_neg hc, List.mem_cons] at hx
        rcases hx with rfl | hx
        · exact hc
        · intro hxs
          exact (ih.2 x hx) (List.mem_cons_of_mem c hxs)

theorem dedupKeepFirst_nodup (l : List String) : (dedupKeepFirst l).Nodup :=
  (dedupGo_nodup l []).1

theorem dedupGo_append_fresh : ∀ (a b seen : List String), a.Nodup →
    (∀ x ∈ a, x ∉ seen) →
    dedupGo seen (a ++ b) = a ++ dedupGo (a.reverse ++ seen) b
  | [], b, seen, _, _ => by simp
  | c :: a2, b, seen, hnd, hfresh => by
    have hc : c ∉ seen := hfresh c (List.mem_cons_self c a2)
    have hnd2 := List.nodup_cons.mp hnd
    have ih := dedupGo_append_fresh a2 b (c :: seen) hnd2.2 (by
      intro x hx
      simp only [List.mem_cons]
      rintro (rfl | hxs)
      · exact hnd2.1 hx
      · exact hfresh x (List.mem_cons_of_mem c hx) hxs)
    rw [List.cons_append,
      show dedupGo seen (c :: (a2 ++ b)) = c :: dedupGo (c :: seen) (a2 ++ b) by
        simp [dedupGo, hc],
      ih]
    simp [List.reverse_cons, List.append_assoc]

theorem dedupGo_of_nodup : ∀ (b seen : List String), b.Nodup →
    dedupGo seen b = b.filter (fun c => decide (c ∉ seen))
  | [], seen, _ => rfl
  | c :: b2, seen, hnd => by
    have hnd2 := List.nodup_cons.mp hnd
    by_cases hc : c ∈ seen
    · rw [show dedupGo seen (c :: b2) = dedupGo seen b2 by simp [dedupGo, hc],
        dedupGo_of_nodup b2 seen hnd2.2]
      simp [List.filter_cons, hc]
    · rw [show dedupGo seen (c :: b2) = c :: dedupGo (c :: seen) b2 by simp [dedupGo, hc],
        dedupGo_of_nodup b2 (c :: seen) hnd2.2]
      have hcong : ∀ x ∈ b2,
          (decide (x ∉ c :: seen) : Bool) = decide (x ∉ seen) := by
        intro x hx
        have hxc : x ≠ c := fun h => hnd2.1 (h ▸ hx)
        by_cases hxs : x ∈ seen
        · simp [hxs]
        · simp [hxs, hxc]
      rw [List.filter_congr hcong]
      simp [List.filter_cons, hc]

theorem findIdx?_some_lt {α : Type} {p : α → Bool} :
    ∀ {l : List α} {i : ℕ}, l.findIdx? p = some i → i < l.length := by
  intro l
  induction l with
  | nil => intro i h; simp [List.findIdx?] at h
  | cons a t ih =>
    intro i h
    rw [List.findIdx?_cons] at h
    by_cases hp : p a
    · rw [if_pos hp] at h
      have h0 : 0 = i := Option.some.inj h
      simp only [List.length_cons]
      omega
    · rw [if_neg hp, List.findIdx?_succ] at h
      cases hj : t.findIdx? p with
      | none =>
        rw [hj] at h
        simp at h
      | some j =>
        rw [hj] at h
        have h2 : j + 1 = i := Option.some.inj h
        have h3 := ih hj
        simp only [List.length_cons]
        omega

theorem findIdx?_of_mem {c : String} :
    ∀ {l : List String}, c ∈ l → ∃ i, l.findIdx? (fun c2 => c2 == c) = some i := by
  intro l
  induction l with
  | nil => intro h; exact absurd h (List.not_mem_nil c)
  | cons a t ih =>
    intro h
    rw [List.findIdx?_cons]
    by_cases ha : a == c
    · exact ⟨0, by simp [ha]⟩
    · have hct : c ∈ t := by
        rcases List.mem_cons.mp h with rfl | hm
        · exact absurd (by simp : (c == c) = true) (by simpa using ha)
        · exact hm
      obtain ⟨j, hj⟩ := ih hct
      exact ⟨j + 1, by simp [ha, hj]⟩

theorem rowLookup_map (f : String → Val) (c : String) :
    ∀ (cols : List String), c ∈ cols →
    rowLookup cols (cols.map f) c = some (f c)
  | [], h => absurd h (List.not_mem_nil c)
  | c2 :: cs, h => by
    unfold rowLookup
    rw [List.findIdx?_cons]
    by_cases he : (c2 == c) = true
    · have hec : c2 = c := eq_of_beq he
      subst hec
      rw [if_pos he]
      simp
    · rw [if_neg he, List.findIdx?_succ]
      have hct : c ∈ cs := by
        rcases List.mem_cons.mp h with rfl | hm
        · exact absurd (beq_self_eq_true c) he
        · exact hm
      have ih := rowLookup_map f c cs hct
      unfold rowLookup at ih
      cases hj : cs.findIdx? (fun c2 => c2 == c) with
      | none =>
        rw [hj] at ih
        simp at ih
      | some j =>
        rw [hj] at ih
        exact ih

theorem rowLookup_isSome {cols : List String} {r : List Val} {c : String}
    (hc : c ∈ cols) (hwf : r.length = cols.length) :
    ∃ v, rowLookup cols r c = some v := by
  obtain ⟨j, hj⟩ := findIdx?_of_mem hc
  have hlt : j < cols.length := findIdx?_some_lt hj
  have hjr : j < r.length := by omega
  unfold rowLookup
  rw [hj]
  exact ⟨r.get ⟨j, hjr⟩, List.get?_eq_get hjr⟩

theorem mem_dedupGo : ∀ (l seen : List String) (x : String),
    x ∈ dedupGo seen l ↔ (x ∈ l ∧ x ∉ seen)
  | [], seen, x => by simp [dedupGo]
  | c :: cs, seen, x => by
    by_cases hc : c ∈ seen
    · rw [show dedupGo seen (c :: cs) = dedupGo seen cs by simp [dedupGo, hc],
        mem_dedupGo cs seen x]
      constructor
      · rintro ⟨h1, h2⟩
        exact ⟨List.mem_cons_of_mem c h1, h2⟩
      · rintro ⟨h1, h2⟩
        rcases List.mem_cons.mp h1 with rfl | hm
        · exact absurd hc h2
        · exact ⟨hm, h2⟩
    · rw [show dedupGo seen (c :: cs) = c :: dedupGo (c :: seen) cs by simp [dedupGo, hc]]
      rw [List.mem_cons, mem_dedupGo cs (c :: seen) x]
      constructor
      · rintro (rfl | ⟨h1, h2⟩)
        · exact ⟨List.mem_cons_self x cs, hc⟩
        · refine ⟨List.mem_cons_of_mem c h1, ?_⟩
          intro hx
          exact h2 (List.mem_cons_of_mem c hx)
      · rintro ⟨h1, h2⟩
        rcases List.mem_cons.mp h1 with rfl | hm
        · exact Or.inl rfl
        · by_cases hxc : x = c
          · exact Or.inl hxc
          · refine Or.inr ⟨hm, ?_⟩
            intro hx
            rcases List.mem_cons.mp hx with h | h
            · exact hxc h
            · exact h2 h

theorem mem_dedupKeepFirst {l : List String} {x : String} :
    x ∈ dedupKeepFirst l ↔ x ∈ l := by
  unfold dedupKeepFirst
  rw [mem_dedupGo]
  simp

theorem getD_map_rows : ∀ (rs : List (List Val)) (f : List Val → List Val) (i : ℕ),
    i < rs.length → (rs.map f).getD i [] = f (rs.getD i [])
  | r :: rs, _, 0, _ => rfl
  | r :: rs, f, i + 1, h => getD_map_rows rs f i (Nat.lt_of_succ_lt_succ h)

theorem getD_append_rows : ∀ (rs ts : List (List Val)) (i : ℕ),
    i < rs.length → (rs ++ ts).getD i [] = rs.getD i []
  | r :: rs, _, 0, _ => rfl
  | r :: rs, ts, i + 1, h => getD_append_rows rs ts i (Nat.lt_of_succ_lt_succ h)

theorem getD_mem_rows : ∀ (rs : List (List Val)) (i : ℕ),
    i < rs.length → rs.getD i [] ∈ rs
  | r :: rs, 0, _ => List.mem_cons_self r rs
  | r :: rs, i + 1, h =>
    List.mem_cons_of_mem r (getD_mem_rows rs i (Nat.lt_of_succ_lt_succ h))

theorem recordToDF_cols_nodup (row : List (String × Val)) :
    (recordToDF row).cols.Nodup := by
  show (dedupKeepFirst (row.map (fun p => p.1))).Nodup
  exact dedupKeepFirst_nodup (row.map (fun p => p.1))

theorem reindexRow_map_self (cols : List String) (g : String → Val) :
    reindexRow cols (cols.map g) cols = cols.map g := by
  unfold reindexRow
  refine List.map_congr_left ?_
  intro c hc
  rw [rowLookup_map g c cols hc]
  rfl

theorem recordToDF_reindex_self (row : List (String × Val)) :
    (recordToDF row).reindex (recordToDF row).cols = recordToDF row := by
  show DF.mk (recordKeys row)
      [reindexRow (recordKeys row) ((recordKeys row).map (recordCell row)) (recordKeys row)] =
    recordToDF row
  rw [reindexRow_map_self]
  rfl

theorem append_cols_eq (remote : RemoteCsv) (row : List (String × Val)) :
    (append_metrics_to_hub_csv remote row).cols =
      dedupKeepFirst ((download_space_csv_or_empty remote).cols ++ (recordToDF row).cols) := by
  unfold append_metrics_to_hub_csv
  by_cases hemp : (download_space_csv_or_empty remote).rows.isEmpty
  · rw [if_pos hemp]
    rfl
  · rw [if_neg hemp]

theorem append_rows_length (remote : RemoteCsv) (row : List (String × Val)) :
    (append_metrics_to_hub_csv remote row).rows.length =
      (download_space_csv_or_empty remote).rows.length + 1 := by
  unfold append_metrics_to_hub_csv
  by_cases hemp : (download_space_csv_or_empty remote).rows.isEmpty
  · rw [if_pos hemp]
    have h0 : (download_space_csv_or_empty remote).rows = [] := by
      cases hre : (download_space_csv_or_empty remote).rows
      · rfl
      · rw [hre] at hemp
        exact absurd hemp (by simp)
    rw [h0]
    rfl
  · rw [if_neg hemp]
    simp [DF.reindex, recordToDF]

theorem append_preserves_cell (remote : RemoteCsv) (row : List (String × Val))
    (hwf : ∀ r ∈ (download_space_csv_or_empty remote).rows,
      r.length = (download_space_csv_or_empty remote).cols.length)
    (i : ℕ) (hi : i < (download_space_csv_or_empty remote).rows.length)
    (c : String) (hc : c ∈ (download_space_csv_or_empty remote).cols) :
    rowLookup (append_metrics_to_hub_csv remote row).cols
        ((append_metrics_to_hub_csv remote row).rows.getD i []) c =
      rowLookup (download_space_csv_or_empty remote).cols
        ((download_space_csv_or_empty remote).rows.getD i []) c := by
  have hemp : (download_space_csv_or_empty remote).rows.isEmpty = false := by
    cases hre : (download_space_csv_or_empty remote).rows
    · rw [hre] at hi
      exact absurd hi (by simp)
    · rfl
  have hcols := append_cols_eq remote row
  have hrows : (append_metrics_to_hub_csv remote row).rows =
      ((download_space_csv_or_empty remote).reindex
        (dedupKeepFirst ((download_space_csv_or_empty remote).cols ++ (recordToDF row).cols))).rows ++
      ((recordToDF row).reindex
        (dedupKeepFirst ((download_space_csv_or_empty remote).cols ++ (recordToDF row).cols))).rows := by
    unfold append_metrics_to_hub_csv
    rw [if_neg (by simp [hemp])]
  rw [hcols, hrows]
  have hcac : c ∈ dedupKeepFirst ((download_space_csv_or_empty remote).cols ++ (recordToDF row).cols) := by
    rw [mem_dedupKeepFirst]
    exact List.mem_append_left _ hc
  rw [getD_append_rows _ _ i (by simpa [DF.reindex] using hi)]
  rw [show ((download_space_csv_or_empty remote).reindex
      (dedupKeepFirst ((download_space_csv_or_empty remote).cols ++ (recordToDF row).cols))).rows =
    (download_space_csv_or_empty remote).rows.map
      (fun r => reindexRow (download_space_csv_or_empty remote).cols r
        (dedupKeepFirst ((download_space_csv_or_empty remote).cols ++ (recordToDF row).cols)))
    from rfl]
  rw [getD_map_rows _ _ i hi]
  rw [show reindexRow (download_space_csv_or_empty remote).cols
      ((download_space_csv_or_empty remote).rows.getD i [])
      (dedupKeepFirst ((download_space_csv_or_empty remote).cols ++ (recordToDF row).cols)) =
    (dedupKeepFirst ((download_space_csv_or_empty remote).cols ++ (recordToDF row).cols)).map
      (fun c => (rowLookup (download_space_csv_or_empty remote).cols
        ((download_space_csv_or_empty remote).rows.getD i []) c).getD Val.nan)
    from rfl]
  rw [rowLookup_map _ c _ hcac]
  obtain ⟨v, hv⟩ := rowLookup_isSome hc (hwf _ (getD_mem_rows _ i hi))
  rw [hv]
  rfl

theorem append_when_empty (remote : RemoteCsv) (row : List (String × Val))
    (h : remote = RemoteCsv.absent ∨ remote = RemoteCsv.emptyFile) :
    append_metrics_to_hub_csv remote row = recordToDF row := by
  have hded : dedupKeepFirst ([] ++ (recordToDF row).cols) = (recordToDF row).cols := by
    rw [List.nil_append]
    unfold dedupKeepFirst
    rw [dedupGo_of_nodup ((recordToDF row).cols) [] (recordToDF_cols_nodup row)]
    simp
  rcases h with rfl | rfl <;>
  · show (recordToDF row).reindex (dedupKeepFirst ([] ++ (recordToDF row).cols)) =
      recordToDF row
    rw [hded]
    exact recordToDF_reindex_self row

/-- C5: for every append of a record to a ledger whose columns are
distinct and whose rows match its header, the merged ledger's column set
is the existing columns followed by the newly introduced record columns in
first-seen order; every existing row keeps its position and all its cell
values under the existing columns; exactly one row is appended; and if the
remote ledger is absent or an empty file (the cases
`_download_space_csv_or_empty` maps to the empty DataFrame), the result is
the new record's one-row frame reindexed onto its own columns. -/
theorem claim_C5 (remote : RemoteCsv) (row : List (String × Val))
    (hnd : (download_space_csv_or_empty remote).cols.Nodup)
    (hwf : ∀ r ∈ (download_space_csv_or_empty remote).rows,
      r.length = (download_space_csv_or_empty remote).cols.length) :
    (append_metrics_to_hub_csv remote row).cols =
      (download_space_csv_or_empty remote).cols ++
        ((recordToDF row).cols.filter
          (fun c => decide (c ∉ (download_space_csv_or_empty remote).cols))) ∧
    (append_metrics_to_hub_csv remote row).rows.length =
      (download_space_csv_or_empty remote).rows.length + 1 ∧
    (∀ i, i < (download_space_csv_or_empty remote).rows.length →
      ∀ c ∈ (download_space_csv_or_empty remote).cols,
      rowLookup (append_metrics_to_hub_csv remote row).cols
          ((append_metrics_to_hub_csv remote row).rows.getD i []) c =
        rowLookup (download_space_csv_or_empty remote).cols
          ((download_space_csv_or_empty remote).rows.getD i []) c) ∧
    ((remote = RemoteCsv.absent ∨ remote = RemoteCsv.emptyFile) →
      append_metrics_to_hub_csv remote row = recordToDF row) := by
  refine ⟨?_, append_rows_length remote row,
    fun i hi c hc => append_preserves_cell remote row hwf i hi c hc,
    append_when_empty remote row⟩
  rw [append_cols_eq remote row]
  unfold dedupKeepFirst
  rw [dedupGo_append_fresh (download_space_csv_or_empty remote).cols
    (recordToDF row).cols [] hnd (by simp)]
  rw [dedupGo_of_nodup ((recordToDF row).cols)
    ((download_space_csv_or_empty remote).cols.reverse ++ [])
    (recordToDF_cols_nodup row)]
  refine congrArg _ (List.filter_congr ?_)
  intro x hx
  refine decide_eq_decide.mpr ?_
  simp [List.mem_reverse]

/-- A concrete one-column remote ledger used to witness C5. -/
def remoteC5 : RemoteCsv := RemoteCsv.csv ⟨["date"], [[Val.str "2024-01-01"]]⟩

/-- The concrete record appended in the C5 witness. -/
def rowC5 : List (String × Val) := [("date", Val.str "2024-02-01"), ("files", Val.int 3)]

/-- C5 witness: the theorem applied to a concrete ledger and record, with
both hypotheses discharged by evaluation. -/
theorem claim_C5_witness :
    (append_metrics_to_hub_csv remoteC5 rowC5).rows.length =
      (download_space_csv_or_empty remoteC5).rows.length + 1 :=
  (claim_C5 remoteC5 rowC5 (by decide) (by decide)).2.1

/-! ## backfill.py: the temporal sampler and orchestrator -/

/-- A calendar date (year, month, day), ordered lexicographically.
Timestamps are modelled at day granularity: the `--since` bound the
sampler uses is always a month start at midnight, so date comparison
decides the filter. -/
structure Date where
  year : ℤ
  month : ℕ
  day : ℕ
deriving DecidableEq, Repr

/-- Python `<` on dates. -/
def dlt (a b : Date) : Bool :=
  decide (a.year < b.year ∨ (a.year = b.year ∧
    (a.month < b.month ∨ (a.month = b.month ∧ a.day < b.day))))

/-- Python `<=` on dates. -/
def dle (a b : Date) : Bool := !(dlt b a)

/-- One commit of the target repository. -/
structure Commit where
  sha : String
  date : Date
deriving DecidableEq, Repr

/-- The repository: branch names with their first-parent histories listed
oldest first — exactly what `git rev-list <branch> --first-parent
--reverse` prints. -/
structure Repo where
  branches : List (String × List Commit)
deriving DecidableEq, Repr

/-- The checked-out state of the repository. -/
inductive Head where
  | onBranch (b : String)
  | detached (sha : String)
deriving DecidableEq, Repr

/-- `git show-ref --verify refs/heads/<b>` succeeding. -/
def branchExists (repo : Repo) (b : String) : Bool :=
  (repo.branches.find? (fun p => p.1 == b)).isSome

/-- The first-parent history (oldest first) of a branch. -/
def branchHistory (repo : Repo) (b : String) : List Commit :=
  ((repo.branches.find? (fun p => p.1 == b)).map (fun p => p.2)).getD []

/-- The tip (newest first-parent) commit sha of a branch. -/
def branchTip (repo : Repo) (b : String) : String :=
  ((branchHistory repo b).getLast?).elim "" (fun c => c.sha)

/-- `git_current_ref`: (`rev-parse --abbrev-ref HEAD`, `rev-parse HEAD`);
a detached head prints "HEAD" as the abbreviated ref. -/
def git_current_ref (repo : Repo) (h : Head) : String × String :=
  match h with
  | Head.onBranch b => (b, branchTip repo b)
  | Head.detached sha => ("HEAD", sha)

/-- `git checkout <target>`: a branch name checks the branch out; any
other commit-ish detaches at it. -/
def checkout (repo : Repo) (target : String) : Head :=
  if branchExists repo target then Head.onBranch target else Head.detached target

/-- `git_first_commit_date`: the date of the oldest first-parent commit of
the branch; `none` models the `RuntimeError` raised when the branch has no
commit. -/
def git_first_commit_date (repo : Repo) (b : String) : Option Date :=
  ((branchHistory repo b).head?).map (fun c => c.date)

/-- `git_first_commit_on_or_after`: the oldest first-parent commit whose
timestamp is on or after the month start (`git rev-list --since ...
--reverse` head; over a linear first-parent history the `--since` bound is
a commit-date filter). -/
def git_first_commit_on_or_after (repo : Repo) (b : String) (since : Date) :
    Option String :=
  (((branchHistory repo b).filter (fun c => dle since c.date)).head?).map
    (fun c => c.sha)

/-- `git_commit_date` by sha (total here: the loop only queries shas that
came out of the history). -/
def git_commit_date (repo : Repo) (sha : String) : Date :=
  (((repo.branches.map (fun p => p.2)).flatten.find? (fun c => c.sha == sha)).map
    (fun c => c.date)).getD ⟨1970, 1, 1⟩

/-- Zero-padding of `isoformat` fields. -/
def pad2 (n : ℕ) : String :=
  if n < 10 then "0" ++ toString n else toString n

/-- `date.isoformat()`. -/
def dateIso (d : Date) : String :=
  toString d.year ++ "-" ++ pad2 d.month ++ "-" ++ pad2 d.day

/-- `date.replace(day=1)`. -/
def monthStart (d : Date) : Date := ⟨d.year, d.month, 1⟩

/-- The previous month's first day. -/
def prevMonth (d : Date) : Date :=
  if d.month = 1 then ⟨d.year - 1, 12, 1⟩ else ⟨d.year, d.month - 1, 1⟩

/-- The generator loop of `month_starts_descending`. -/
def monthStartsGo (d : Date) : ℕ → List Date
  | 0 => []
  | n + 1 => d :: monthStartsGo (prevMonth d) n

/-- `month_starts_descending`: first days of months, newest first, from
the current month backwards, hard-capped at 2400 entries (200 years). -/
def month_starts_descending (today : Date) : List Date :=
  monthStartsGo (monthStart today) 2400

/-- Everything external that determines one backfill run: the repository,
its starting checkout state, the CLI arguments, the wall clock, and the
behaviour of the external programs at each snapshot sha. -/
structure BackfillWorld where
  repo : Repo
  initHead : Head
  branch : String
  today : Date
  maxMonths : ℕ
  mainPyExists : Bool
  analyzePyExists : Bool
  scanExit : String → ℤ
  report : String → ReportNode
  cloc : String → ClocOutcome

/-- The analyze.py subprocess run at snapshot `sha`, with `--date` set to
the commit's own date (backfill.py lines 144-145). -/
def analyzeOf (w : BackfillWorld) (sha : String) : Except AnalyzeErr Rec :=
  analyze_main (w.report sha) (dateIso (git_commit_date w.repo sha)) (w.cloc sha)

/-- The state and outcome of the snapshot loop: `exc` is the
`CalledProcessError` escaping when analyze.py exits non-zero (the call at
line 145 uses `check=True`); `dfs` the collected records; `emitted` the
snapshot shas checked out, in order; `head` the repository head. -/
structure LoopOut where
  exc : Option AnalyzeErr
  dfs : List Rec
  emitted : List String
  head : Head
deriving Repr

/-- The `for month_start in starts` loop (backfill.py lines 120-151):
break before months older than the earliest commit's month; skip months
resolving to no commit or to an already seen sha; otherwise check out the
snapshot, run the scanner (`main.py`; a non-zero exit prints an error and
breaks the loop), then run analyze.py and collect its record. -/
def runLoop (w : BackfillWorld) (earliest : Date) :
    List Date → List String → List Rec → List String → Head → LoopOut
  | [], _, dfs, em, h => ⟨none, dfs, em, h⟩
  | m :: rest, seen, dfs, em, h =>
    if dlt m (monthStart earliest) then ⟨none, dfs, em, h⟩
    else
      match git_first_commit_on_or_after w.repo w.branch m with
      | none => runLoop w earliest rest seen dfs em h
      | some sha =>
        if sha ∈ seen then runLoop w earliest rest seen dfs em h
        else
          if w.scanExit sha ≠ 0 then ⟨none, dfs, em ++ [sha], checkout w.repo sha⟩
          else
            match analyzeOf w sha with
            | Except.error e => ⟨some e, dfs, em ++ [sha], checkout w.repo sha⟩
            | Except.ok rec =>
              runLoop w earliest rest (sha :: seen) (dfs ++ [rec]) (em ++ [sha])
                (checkout w.repo sha)

/-- The date cell of a record, used by the final chronological sort. -/
def recDate (r : Rec) : String :=
  match recFind r "date" with
  | some (Val.str s) => s
  | _ => ""

/-- `pd.concat(dfs, ignore_index=True)` followed by the sort on the
parsed `date` column and `to_csv` (backfill.py lines 157-162): the
records aligned on the union of their columns, ordered by their ISO date
strings (identical to ordering by the parsed dates). -/
def concatSortRecords (dfs : List Rec) : DF :=
  ⟨dedupKeepFirst ((dfs.map (fun r => r.map (fun p => p.1))).flatten),
   (List.insertionSort (fun a b => recDate a ≤ recDate b) dfs).map
     (fun r => (dedupKeepFirst ((dfs.map (fun r2 => r2.map (fun p => p.1))).flatten)).map
       (recordCell r))⟩

/-- The final status of a backfill run:
* `configExit`: `sys.exit(2)` from the argument/branch checks;
* `runtimeError`: the `RuntimeError` of `git_first_commit_date`, raised
  after the branch checkout but before the try/finally;
* `raised e`: the `CalledProcessError` from a non-zero analyze.py exit,
  re-raised after the finally block runs;
* `finished out`: normal return (`out = none` prints "no data collected"). -/
inductive RunKind where
  | configExit
  | runtimeError
  | raised (e : AnalyzeErr)
  | finished (out : Option DF)
deriving DecidableEq, Repr

/-- Observable outcome of a backfill run. -/
structure BackfillResult where
  kind : RunKind
  finalHead : Head
  emitted : List String
deriving DecidableEq, Repr

/-- The month-start list actually iterated: `starts[:max_months]` when
`--max-months` is non-zero (0 is falsy, so no truncation). -/
def backfillStarts (w : BackfillWorld) : List Date :=
  if w.maxMonths ≠ 0 then (month_starts_descending w.today).take w.maxMonths
  else month_starts_descending w.today

/-- The tail of `main` after the loop: build the run status from the loop
outcome, then perform the `finally:` restoration — checkout of the
captured start sha when the run began detached ("HEAD"), else of the
captured branch name. -/
def backfillFinish (w : BackfillWorld) (lr : LoopOut) : BackfillResult :=
  ⟨(match lr.exc with
    | some e => RunKind.raised e
    | none =>
      if lr.dfs.isEmpty then RunKind.finished none
      else RunKind.finished (some (concatSortRecords lr.dfs))),
   (if (git_current_ref w.repo w.initHead).1 = "HEAD" then
      checkout w.repo (git_current_ref w.repo w.initHead).2
    else checkout w.repo (git_current_ref w.repo w.initHead).1),
   lr.emitted⟩

/-- backfill.py `main` (lines 78-169): the argument checks exit with
status 2 before any repository mutation; the pre-run reference is
captured; the branch is verified (exit 2 if missing) and checked out; the
earliest first-parent commit date is computed — a branch with no commits
raises `RuntimeError` here, after the checkout but before the
try/finally; then the snapshot loop runs inside `try:` and the `finally:`
block restores the starting reference whatever the loop did. -/
def backfill_main (w : BackfillWorld) : BackfillResult :=
  if ¬ (w.mainPyExists && w.analyzePyExists) then ⟨RunKind.configExit, w.initHead, []⟩
  else if ¬ branchExists w.repo w.branch then ⟨RunKind.configExit, w.initHead, []⟩
  else
    match git_first_commit_date w.repo w.branch with
    | none => ⟨RunKind.runtimeError, checkout w.repo w.branch, []⟩
    | some earliest =>
      backfillFinish w
        (runLoop w earliest (backfillStarts w) [] [] [] (checkout w.repo w.branch))

/-- Head-state side conditions every real git checkout satisfies. -/
def headOkB (repo : Repo) : Head → Bool
  | Head.onBranch b => branchExists repo b && !(b == "HEAD")
  | Head.detached s => !(branchExists repo s)

/-- A well-formed world: every branch ref points at a commit (non-empty
first-parent history, as in real git), and the starting head either names
an existing branch other than "HEAD" or is detached at a sha that is not
also a branch name. -/
def WellFormed (w : BackfillWorld) : Prop :=
  (∀ p ∈ w.repo.branches, p.2 ≠ ([] : List Commit)) ∧
  headOkB w.repo w.initHead = true

instance (w : BackfillWorld) : Decidable (WellFormed w) := by
  unfold WellFormed
  infer_instance

/-! ### Loop and restoration lemmas -/

theorem getLast?_cons_ne {α : Type} (a : α) {l : List α} (h : l ≠ []) :
    (a :: l).getLast? = l.getLast? := by
  cases l with
  | nil => exact absurd rfl h
  | cons b t => exact List.getLast?_cons_cons

/-- The inductive characterisation of the snapshot loop: starting from a
seen-set that matches the emitted list, the loop appends a duplicate-free
block of fresh shas; a sha whose scanner run fails is necessarily the last
one emitted and the loop ends without an exception; a sha whose scanner
succeeds but whose analyze run fails is the last one emitted and its error
is the loop's exception. -/
theorem runLoop_master (w : BackfillWorld) (earliest : Date) :
    ∀ (starts : List Date) (seen : List String) (dfs : List Rec)
      (em : List String) (h : Head),
    (∀ s, s ∈ seen ↔ s ∈ em) → em.Nodup →
    ∃ new : List String,
      (runLoop w earliest starts seen dfs em h).emitted = em ++ new ∧
      (em ++ new).Nodup ∧
      (∀ s ∈ new, s ∉ seen) ∧
      (∀ s ∈ new, w.scanExit s ≠ 0 →
        new.getLast? = some s ∧
        (runLoop w earliest starts seen dfs em h).exc = none) ∧
      (∀ s ∈ new, ∀ e, w.scanExit s = 0 → analyzeOf w s = Except.error e →
        new.getLast? = some s ∧
        (runLoop w earliest starts seen dfs em h).exc = some e) := by
  intro starts
  induction starts with
  | nil =>
    intro seen dfs em h hinv hnd
    exact ⟨[], by simp [runLoop], by simpa using hnd, by simp, by simp, by simp⟩
  | cons m rest ih =>
    intro seen dfs em h hinv hnd
    by_cases hbreak : dlt m (monthStart earliest) = true
    · have hstep : runLoop w earliest (m :: rest) seen dfs em h =
          ⟨none, dfs, em, h⟩ := by
        simp [runLoop, hbreak]
      rw [hstep]
      exact ⟨[], by simp, by simpa using hnd, by simp, by simp, by simp⟩
    · cases hres : git_first_commit_on_or_after w.repo w.branch m with
      | none =>
        have hstep : runLoop w earliest (m :: rest) seen dfs em h =
            runLoop w earliest rest seen dfs em h := by
          simp [runLoop, hbreak, hres]
        rw [hstep]
        exact ih seen dfs em h hinv hnd
      | some sha =>
        by_cases hseen : sha ∈ seen
        · have hstep : runLoop w earliest (m :: rest) seen dfs em h =
              runLoop w earliest rest seen dfs em h := by
            simp [runLoop, hbreak, hres, hseen]
          rw [hstep]
          exact ih seen dfs em h hinv hnd
        · have hsem : sha ∉ em := fun hm => hseen ((hinv sha).mpr hm)
          have hnd1 : (em ++ [sha]).Nodup := by
            rw [List.nodup_append]
            refine ⟨hnd, List.nodup_singleton sha, ?_⟩
            intro a ha hb
            rw [List.mem_singleton] at hb
            subst hb
            exact hsem ha
          by_cases hscan : w.scanExit sha = 0
          · cases hana : analyzeOf w sha with
            | error e =>
              have hstep : runLoop w earliest (m :: rest) seen dfs em h =
                  ⟨some e, dfs, em ++ [sha], checkout w.repo sha⟩ := by
                simp [runLoop, hbreak, hres, hseen, hscan, hana]
              rw [hstep]
              refine ⟨[sha], rfl, hnd1, ?_, ?_, ?_⟩
              · intro s hs
                rw [List.mem_singleton] at hs
                subst hs
                exact hseen
              · intro s hs hfail
                rw [List.mem_singleton] at hs
                subst hs
                exact absurd hscan hfail
              · intro s hs e2 _ hana2
                rw [List.mem_singleton] at hs
                subst hs
                rw [hana] at hana2
                exact ⟨rfl, by rw [show e2 = e from (Except.error.inj hana2).symm]⟩
            | ok rec =>
              have hstep : runLoop w earliest (m :: rest) seen dfs em h =
                  runLoop w earliest rest (sha :: seen) (dfs ++ [rec])
                    (em ++ [sha]) (checkout w.repo sha) := by
                simp [runLoop, hbreak, hres, hseen, hscan, hana]
              rw [hstep]
              have hinv2 : ∀ s, s ∈ sha :: seen ↔ s ∈ em ++ [sha] := by
                intro s
                rw [List.mem_cons, List.mem_append, List.mem_singleton, hinv s]
                tauto
              obtain ⟨new2, h1, h2, h3, h4, h5⟩ :=
                ih (sha :: seen) (dfs ++ [rec]) (em ++ [sha]) (checkout w.repo sha)
                  hinv2 hnd1
              refine ⟨sha :: new2, ?_, ?_, ?_, ?_, ?_⟩
              · rw [h1, List.append_assoc, List.singleton_append]
              · rw [show em ++ sha :: new2 = (em ++ [sha]) ++ new2 by
                  rw [List.append_assoc, List.singleton_append]]
                exact h2
              · intro s hs
                rcases List.mem_cons.mp hs with rfl | hs2
                · exact hseen
                · intro hmem
                  exact h3 s hs2 (List.mem_cons_of_mem sha hmem)
              · intro s hs hfail
                rcases List.mem_cons.mp hs with rfl | hs2
                · exact absurd hscan hfail
                · obtain ⟨hl, he⟩ := h4 s hs2 hfail
                  have hne : new2 ≠ [] := by
                    intro h0
                    rw [h0] at hl
                    exact Option.noConfusion hl
                  exact ⟨by rw [getLast?_cons_ne sha hne]; exact hl, he⟩
              · intro s hs e2 hz hana2
                rcases List.mem_cons.mp hs with rfl | hs2
                · rw [hana] at hana2
                  exact Except.noConfusion hana2
                · obtain ⟨hl, he⟩ := h5 s hs2 e2 hz hana2
                  have hne : new2 ≠ [] := by
                    intro h0
                    rw [h0] at hl
                    exact Option.noConfusion hl
                  exact ⟨by rw [getLast?_cons_ne sha hne]; exact hl, he⟩
          · have hstep : runLoop w earliest (m :: rest) seen dfs em h =
                ⟨none, dfs, em ++ [sha], checkout w.repo sha⟩ := by
              simp [runLoop, hbreak, hres, hseen, hscan]
            rw [hstep]
            refine ⟨[sha], rfl, hnd1, ?_, ?_, ?_⟩
            · intro s hs
              rw [List.mem_singleton] at hs
              subst hs
              exact hseen
            · intro s hs _
              rw [List.mem_singleton] at hs
              subst hs
              exact ⟨rfl, rfl⟩
            · intro s hs e2 hz _
              rw [List.mem_singleton] at hs
              subst hs
              exact absurd hz hscan

/-- The `finally:` restoration puts the head back to the captured pre-run
reference, whatever the loop left behind (checkout by name is absolute). -/
theorem finish_restores {w : BackfillWorld}
    (hhead : headOkB w.repo w.initHead = true) (lr : LoopOut) :
    (backfillFinish w lr).finalHead = w.initHead := by
  show (if (git_current_ref w.repo w.initHead).1 = "HEAD" then
      checkout w.repo (git_current_ref w.repo w.initHead).2
    else checkout w.repo (git_current_ref w.repo w.initHead).1) = w.initHead
  cases hh : w.initHead with
  | onBranch b =>
    rw [hh] at hhead
    simp only [headOkB, Bool.and_eq_true] at hhead
    have hb2 : b ≠ "HEAD" := by
      intro h0
      rw [h0] at hhead
      simp at hhead
    rw [if_neg (show ¬((git_current_ref w.repo (Head.onBranch b)).1 = "HEAD") from hb2)]
    show checkout w.repo b = Head.onBranch b
    unfold checkout
    rw [if_pos hhead.1]
  | detached s =>
    rw [hh] at hhead
    simp only [headOkB] at hhead
    have hs : branchExists w.repo s = false := by
      cases hbs : branchExists w.repo s
      · rfl
      · rw [hbs] at hhead
        exact absurd hhead (by simp)
    rw [if_pos (show (git_current_ref w.repo (Head.detached s)).1 = "HEAD" from rfl)]
    show checkout w.repo s = Head.detached s
    unfold checkout
    rw [if_neg (by simp [hs])]

/-- Under well-formedness the run always ends checked out at the pre-run
reference: the early exits never mutate the head, the `RuntimeError` gap
before the try/finally is unreachable (a verified branch has a commit),
and every path through the loop ends in the `finally:` restoration. -/
theorem backfill_restores {w : BackfillWorld} (hwf : WellFormed w) :
    (backfill_main w).finalHead = w.initHead := by
  obtain ⟨hbr, hhead⟩ := hwf
  unfold backfill_main
  by_cases h1 : ¬ (w.mainPyExists && w.analyzePyExists)
  · rw [if_pos h1]
  · rw [if_neg h1]
    by_cases h2 : ¬ branchExists w.repo w.branch
    · rw [if_pos h2]
    · rw [if_neg h2]
      have hbe : branchExists w.repo w.branch = true := not_not.mp h2
      obtain ⟨p, hp⟩ := Option.isSome_iff_exists.mp hbe
      have hne := hbr p (List.mem_of_find?_eq_some hp)
      have hct : ∃ c t, branchHistory w.repo w.branch = c :: t := by
        have hbh : branchHistory w.repo w.branch = p.2 := by
          unfold branchHistory
          rw [hp]
          rfl
        rw [hbh]
        cases hc : p.2 with
        | nil => exact absurd hc hne
        | cons c2 t2 => exact ⟨c2, t2, rfl⟩
      obtain ⟨c, t, hct⟩ := hct
      have hsome : git_first_commit_date w.repo w.branch = some c.date := by
        unfold git_first_commit_date
        rw [hct]
        rfl
      rw [hsome]
      exact finish_restores hhead _

/-- A snapshot whose scanner run fails is the last one processed, and the
run still returns normally (the error is printed, the loop breaks, and no
exception reaches the caller). -/
theorem backfill_scanfail (w : BackfillWorld) (sha : String)
    (hmem : sha ∈ (backfill_main w).emitted) (hfail : w.scanExit sha ≠ 0) :
    (backfill_main w).emitted.getLast? = some sha ∧
    ∃ out, (backfill_main w).kind = RunKind.finished out := by
  unfold backfill_main at hmem ⊢
  by_cases h1 : ¬ (w.mainPyExists && w.analyzePyExists)
  · rw [if_pos h1] at hmem
    exact absurd hmem (List.not_mem_nil sha)
  · rw [if_neg h1] at hmem ⊢
    by_cases h2 : ¬ branchExists w.repo w.branch
    · rw [if_pos h2] at hmem
      exact absurd hmem (List.not_mem_nil sha)
    · rw [if_neg h2] at hmem ⊢
      cases he : git_first_commit_date w.repo w.branch with
      | none =>
        rw [he] at hmem
        exact absurd hmem (List.not_mem_nil sha)
      | some earliest =>
        rw [he] at hmem
        set lr := runLoop w earliest (backfillStarts w) [] [] []
          (checkout w.repo w.branch) with hlr
        obtain ⟨new, e1, e2, e3, e4, e5⟩ :=
          runLoop_master w earliest (backfillStarts w) [] [] []
            (checkout w.repo w.branch) (by simp) List.nodup_nil
        have hm2 : sha ∈ lr.emitted := hmem
        rw [← hlr] at e1 e4
        rw [e1, List.nil_append] at hm2
        obtain ⟨hl, hexc⟩ := e4 sha hm2 hfail
        constructor
        · show lr.emitted.getLast? = some sha
          rw [e1, List.nil_append]
          exact hl
        · show ∃ out, (backfillFinish w lr).kind = RunKind.finished out
          have hk : (backfillFinish w lr).kind =
              (if lr.dfs.isEmpty then RunKind.finished none
               else RunKind.finished (some (concatSortRecords lr.dfs))) := by
            show (match lr.exc with
              | some e => RunKind.raised e
              | none =>
                if lr.dfs.isEmpty then RunKind.finished none
                else RunKind.finished (some (concatSortRecords lr.dfs))) = _
            rw [hexc]
          by_cases hd : lr.dfs.isEmpty
          · exact ⟨none, by rw [hk, if_pos hd]⟩
          · exact ⟨some (concatSortRecords lr.dfs), by rw [hk, if_neg hd]⟩

/-- A snapshot whose scanner run succeeds but whose analyze run exits
non-zero is the last one processed, and its `CalledProcessError` is the
run's outcome (re-raised after restoration). -/
theorem backfill_analyzeerr (w : BackfillWorld) (sha : String) (e : AnalyzeErr)
    (hmem : sha ∈ (backfill_main w).emitted) (hscan : w.scanExit sha = 0)
    (hana : analyzeOf w sha = Except.error e) :
    (backfill_main w).emitted.getLast? = some sha ∧
    (backfill_main w).kind = RunKind.raised e := by
  unfold backfill_main at hmem ⊢
  by_cases h1 : ¬ (w.mainPyExists && w.analyzePyExists)
  · rw [if_pos h1] at hmem
    exact absurd hmem (List.not_mem_nil sha)
  · rw [if_neg h1] at hmem ⊢
    by_cases h2 : ¬ branchExists w.repo w.branch
    · rw [if_pos h2] at hmem
      exact absurd hmem (List.not_mem_nil sha)
    · rw [if_neg h2] at hmem ⊢
      cases he : git_first_commit_date w.repo w.branch with
      | none =>
        rw [he] at hmem
        exact absurd hmem (List.not_mem_nil sha)
      | some earliest =>
        rw [he] at hmem
        set lr := runLoop w earliest (backfillStarts w) [] [] []
          (checkout w.repo w.branch) with hlr
        obtain ⟨new, e1, e2, e3, e4, e5⟩ :=
          runLoop_master w earliest (backfillStarts w) [] [] []
            (checkout w.repo w.branch) (by simp) List.nodup_nil
        have hm2 : sha ∈ lr.emitted := hmem
        rw [← hlr] at e1 e5
        rw [e1, List.nil_append] at hm2
        obtain ⟨hl, hexc⟩ := e5 sha hm2 e hscan hana
        constructor
        · show lr.emitted.getLast? = some sha
          rw [e1, List.nil_append]
          exact hl
        · show (backfillFinish w lr).kind = RunKind.raised e
          show (match lr.exc with
            | some e2 => RunKind.raised e2
            | none =>
              if lr.dfs.isEmpty then RunKind.finished none
              else RunKind.finished (some (concatSortRecords lr.dfs))) = _
          rw [hexc]

/-! ### Claims C1, C2, C3, C7 -/

/-- C1: for every backfill run over a well-formed world — normal
completion of the snapshot loop, an abort after a scanner failure, or an
analyze exception raised inside the loop — the repository's final
checked-out reference equals the reference captured before the run
started (the `finally:` restoration runs on every one of those paths, and
the paths that skip it never move the head off a verified state). -/
theorem claim_C1 (w : BackfillWorld) (hwf : WellFormed w) :
    (backfill_main w).finalHead = w.initHead :=
  backfill_restores hwf

/-- The world of the C1 witness: a one-commit repository whose scanner
fails, so the run aborts after the first snapshot. -/
def w1 : BackfillWorld :=
  { repo := ⟨[("main", [⟨"a1", ⟨2024, 1, 10⟩⟩])]⟩, initHead := Head.onBranch "main",
    branch := "main", today := ⟨2024, 2, 15⟩, maxMonths := 3,
    mainPyExists := true, analyzePyExists := true,
    scanExit := fun _ => 1, report := fun _ => treeC8,
    cloc := fun _ => ClocOutcome.callFailed }

/-- C1 witness: the theorem applied to the concrete world `w1`. -/
theorem claim_C1_witness :
    WellFormed w1 ∧ (backfill_main w1).finalHead = w1.initHead :=
  ⟨by decide, claim_C1 w1 (by decide)⟩

/-- C7: within one run the emitted snapshot shas are pairwise distinct,
and a month-start that resolves to no commit, or to a sha already seen,
is skipped: the loop state is simply carried to the next month, with no
snapshot emitted and no error raised. -/
theorem claim_C7 (w : BackfillWorld) :
    (backfill_main w).emitted.Nodup ∧
    (∀ earliest m rest seen dfs em h,
      dlt m (monthStart earliest) = false →
      git_first_commit_on_or_after w.repo w.branch m = none →
      runLoop w earliest (m :: rest) seen dfs em h =
        runLoop w earliest rest seen dfs em h) ∧
    (∀ earliest m rest seen dfs em h sha,
      dlt m (monthStart earliest) = false →
      git_first_commit_on_or_after w.repo w.branch m = some sha →
      sha ∈ seen →
      runLoop w earliest (m :: rest) seen dfs em h =
        runLoop w earliest rest seen dfs em h) := by
  refine ⟨?_, ?_, ?_⟩
  · unfold backfill_main
    by_cases h1 : ¬ (w.mainPyExists && w.analyzePyExists)
    · rw [if_pos h1]
      exact List.nodup_nil
    · rw [if_neg h1]
      by_cases h2 : ¬ branchExists w.repo w.branch
      · rw [if_pos h2]
        exact List.nodup_nil
      · rw [if_neg h2]
        cases he : git_first_commit_date w.repo w.branch with
        | none => exact List.nodup_nil
        | some earliest =>
          obtain ⟨new, e1, e2, _, _, _⟩ :=
            runLoop_master w earliest (backfillStarts w) [] [] []
              (checkout w.repo w.branch) (by simp) List.nodup_nil
          show (runLoop w earliest (backfillStarts w) [] [] []
            (checkout w.repo w.branch)).emitted.Nodup
          rw [e1]
          simpa using e2
  · intro earliest m rest seen dfs em h hb hres
    simp [runLoop, hb, hres]
  · intro earliest m rest seen dfs em h sha hb hres hs
    simp [runLoop, hb, hres, hs]

/-- The world of the C7 witness: one commit in January, sampled from a
February today, so the newest month-start resolves to no commit. -/
def w7 : BackfillWorld :=
  { repo := ⟨[("main", [⟨"a7", ⟨2024, 1, 10⟩⟩])]⟩, initHead := Head.onBranch "main",
    branch := "main", today := ⟨2024, 2, 15⟩, maxMonths := 3,
    mainPyExists := true, analyzePyExists := true,
    scanExit := fun _ => 1, report := fun _ => treeC8,
    cloc := fun _ => ClocOutcome.callFailed }

/-- C7 witness: distinctness of the emitted shas on `w7`, and the
concrete no-commit February month-start being skipped without effect. -/
theorem claim_C7_witness :
    (backfill_main w7).emitted.Nodup ∧
    runLoop w7 ⟨2024, 1, 10⟩ [⟨2024, 2, 1⟩] [] [] [] (Head.onBranch "main") =
      runLoop w7 ⟨2024, 1, 10⟩ [] [] [] [] (Head.onBranch "main") :=
  ⟨(claim_C7 w7).1,
   (claim_C7 w7).2.1 ⟨2024, 1, 10⟩ ⟨2024, 2, 1⟩ [] [] [] [] (Head.onBranch "main")
     (by decide) (by decide)⟩

/-- The world of the C2 counterexample and witness: two monthly commits,
every scanner invocation failing. -/
def w2 : BackfillWorld :=
  { repo := ⟨[("main", [⟨"b2", ⟨2023, 12, 5⟩⟩, ⟨"a2", ⟨2024, 1, 10⟩⟩])]⟩,
    initHead := Head.onBranch "main", branch := "main", today := ⟨2024, 1, 15⟩,
    maxMonths := 3, mainPyExists := true, analyzePyExists := true,
    scanExit := fun _ => 1, report := fun _ => treeC8,
    cloc := fun _ => ClocOutcome.callFailed }

/-- C2 counterexample: in `w2` the scanner fails on the first (newest)
snapshot "a2"; the loop does abort — the older commit "b2" is never
processed — but no error is re-raised to the caller: the run returns
normally with `finished none` ("no data collected"), refuting the claim
that the fatal error is re-raised after restoration. -/
theorem claim_C2_counterexample :
    w2.scanExit "a2" = 1 ∧
    (backfill_main w2).emitted = ["a2"] ∧
    (backfill_main w2).kind = RunKind.finished none := by
  refine ⟨rfl, by decide, by decide⟩

/-- C2 (amended): if the scanner exits non-zero for a processed snapshot,
that snapshot is the last one processed (no older months are attempted),
the repository is restored to its pre-run reference, and the run then
returns normally — the failure is printed, the loop breaks, and records
already collected are still emitted; no exception is re-raised. -/
theorem claim_C2_amended (w : BackfillWorld) (hwf : WellFormed w) (sha : String)
    (hmem : sha ∈ (backfill_main w).emitted) (hfail : w.scanExit sha ≠ 0) :
    (backfill_main w).emitted.getLast? = some sha ∧
    (∃ out, (backfill_main w).kind = RunKind.finished out) ∧
    (backfill_main w).finalHead = w.initHead := by
  obtain ⟨hl, hout⟩ := backfill_scanfail w sha hmem hfail
  exact ⟨hl, hout, backfill_restores hwf⟩

/-- C2 witness: the amended theorem on the concrete world `w2`. -/
theorem claim_C2_witness :
    WellFormed w2 ∧ (backfill_main w2).emitted.getLast? = some "a2" :=
  ⟨by decide, (claim_C2_amended w2 (by decide) "a2" (by decide) (by decide)).1⟩

/-- A report tree with no metric-bearing node at all (a bare directory). -/
def treeEmptyC3 : ReportNode :=
  ReportNode.node
    { name := some "src", nodetype := some "directory", path := some "src",
      qualname := none, lineno := none, end_lineno := none, docstring := none,
      metrics := none } []

/-- The world of the C3 counterexample and witness: two monthly commits,
scanner succeeding, every snapshot's report containing zero metric-bearing
rows. -/
def w3 : BackfillWorld :=
  { repo := ⟨[("main", [⟨"b3", ⟨2023, 12, 5⟩⟩, ⟨"a3", ⟨2024, 1, 10⟩⟩])]⟩,
    initHead := Head.onBranch "main", branch := "main", today := ⟨2024, 1, 15⟩,
    maxMonths := 3, mainPyExists := true, analyzePyExists := true,
    scanExit := fun _ => 0, report := fun _ => treeEmptyC3,
    cloc := fun _ => ClocOutcome.callFailed }

/-- C3 counterexample: snapshot "a3" has zero metric-bearing rows.  No
`EmptyMetricsError` exists in the code: the aggregation dies converting
the NaN `lines max` statistic to int, analyze.py exits non-zero, and the
run aborts with the raised `CalledProcessError` — the snapshot is not
skipped with a warning and the run does not continue (the older commit
"b3" is never processed). -/
theorem claim_C3_counterexample :
    load_report_to_df (w3.report "a3") true = [] ∧
    (backfill_main w3).emitted = ["a3"] ∧
    (backfill_main w3).kind =
      RunKind.raised (AnalyzeErr.agg (AggErr.intOfNan "lines max")) := by
  refine ⟨rfl, by decide, by decide⟩

/-- C3 (amended): for every processed snapshot whose flattened rows
contain zero metric-bearing rows, the aggregation step raises an error
(`int()` of the NaN `lines max` statistic) instead of producing NaN
statistics; the analyzer's non-zero exit makes that snapshot the last one
processed and aborts the whole run with the raised error, after the
repository is restored — the snapshot is not skipped and the run does not
continue, so no row for it (nor for any older month) is produced. -/
theorem claim_C3_amended (w : BackfillWorld) (hwf : WellFormed w) (sha : String)
    (hmem : sha ∈ (backfill_main w).emitted) (hscan : w.scanExit sha = 0)
    (hempty : load_report_to_df (w.report sha) true = []) :
    aggregate_metrics (process_df (load_report_to_df (w.report sha) true))
      (dateIso (git_commit_date w.repo sha)) =
      Except.error (AggErr.intOfNan "lines max") ∧
    (backfill_main w).kind =
      RunKind.raised (AnalyzeErr.agg (AggErr.intOfNan "lines max")) ∧
    (backfill_main w).emitted.getLast? = some sha ∧
    (backfill_main w).finalHead = w.initHead := by
  have hagg : aggregate_metrics (process_df (load_report_to_df (w.report sha) true))
      (dateIso (git_commit_date w.repo sha)) =
      Except.error (AggErr.intOfNan "lines max") := by
    rw [hempty]
    exact aggregate_metrics_nil _
  have hana : analyzeOf w sha =
      Except.error (AnalyzeErr.agg (AggErr.intOfNan "lines max")) := by
    unfold analyzeOf analyze_main
    rw [hagg]
  obtain ⟨hl, hk⟩ := backfill_analyzeerr w sha _ hmem hscan hana
  exact ⟨hagg, hk, hl, backfill_restores hwf⟩

/-- C3 witness: the amended theorem on the concrete world `w3`. -/
theorem claim_C3_witness :
    WellFormed w3 ∧ (backfill_main w3).finalHead = w3.initHead :=
  ⟨by decide, (claim_C3_amended w3 (by decide) "a3" (by decide) rfl rfl).2.2.2⟩
